import Mathlib

/-! # Restaurant menu and orders (`index.js`)

A shallow embedding of `index.js`: the menu item constructors `Drink`, `Salad`
and `Hamburger`, their price and calorie methods, and the `Order` aggregate
with `addItem`, `removeItem`, `calculatePrice`, `calculateCalories`, `close`
and the two listings `getItems` and `getItemsWithPriceAndCalories`.

Modelling conventions.

* A JavaScript number is a double: a rational, or one of `NaN`, `+Infinity`,
  `-Infinity`.  The result of `+`, `*` and `/` on finite numbers is the exact
  result rounded by the host.  That rounding is a parameter (`Rounding`), known
  only through three facts that hold for doubles: an integer of magnitude up to
  2^53 is not changed, a rounded result is not changed by rounding it again, and
  a value from 2^1024 on becomes `+Infinity`.  The sign of zero is not
  represented.
* The `length` of a string is its number of UTF-16 code units (`utf16Length`).
* A thrown exception is the `Except.error` branch; `new Error(msg)` and the
  runtime's own `TypeError` are kept apart.
* `String.prototype.toUpperCase` and `toLowerCase` are host functions and are
  taken as a parameter (`Host`); `asciiHost` is the instance that maps the
  letters `a`-`z` and `A`-`Z` and is used to evaluate concrete calls.
* A constructor function also owns the properties `length`, `name` and
  `prototype`.  These names are lower-case, and `toUpperCase` never returns
  them, so the catalog lookups list the catalog keys only.
-/

namespace Restaurant

/-! ## Numbers and values -/

/-- A JavaScript number: a rational, or one of the three special values. -/
inductive JSNumber where
  | nan
  | posInf
  | negInf
  | fin (q : ℚ)
  deriving DecidableEq

namespace JSNumber

/-- Unary minus. -/
def neg : JSNumber → JSNumber
  | nan => nan
  | posInf => negInf
  | negInf => posInf
  | fin q => fin (-q)

/-- An infinity of the given sign. -/
def inf (positive : Bool) : JSNumber := if positive then posInf else negInf

/-- The truth value of a number: `0` and `NaN` are falsy. -/
def toBoolean : JSNumber → Bool
  | nan => false
  | posInf => true
  | negInf => true
  | fin q => decide (q ≠ 0)

/-- The value of `position - 1` in `removeItem`, taken exactly.  For an
integer position it selects the same place of every array, whose length is
below 2^32, as the rounded difference of the host: the two are equal when the
distance of the position from 1 is at most 2^53, and both lie beyond the array
on the same side otherwise. -/
def minusOne : JSNumber → JSNumber
  | nan => nan
  | posInf => posInf
  | negInf => negInf
  | fin q => fin (q - 1)

end JSNumber

/-- The rounding of the host: `round q` is the double, or the infinity, that
an arithmetic operation returns when its exact result is `q`.  The three facts
hold for the doubles of IEEE 754 with rounding to nearest. -/
structure Rounding where
  round : ℚ → JSNumber
  round_int : ∀ n : ℤ, n.natAbs ≤ 2 ^ 53 → round (n : ℚ) = .fin (n : ℚ)
  round_idem : ∀ q r : ℚ, round q = .fin r → round r = .fin r
  round_large : ∀ q : ℚ, (2 : ℚ) ^ 1024 ≤ q → round q = .posInf

namespace JSNumber

/-- The operator `+` on two numbers. -/
def add (R : Rounding) : JSNumber → JSNumber → JSNumber
  | nan, _ => nan
  | _, nan => nan
  | posInf, negInf => nan
  | negInf, posInf => nan
  | posInf, _ => posInf
  | negInf, _ => negInf
  | fin _, posInf => posInf
  | fin _, negInf => negInf
  | fin a, fin b => R.round (a + b)

/-- The operator `-` on two numbers: `a - b` is `a + (-b)`. -/
def sub (R : Rounding) (a b : JSNumber) : JSNumber := add R a (neg b)

/-- The operator `*` on two numbers. -/
def mul (R : Rounding) : JSNumber → JSNumber → JSNumber
  | nan, _ => nan
  | _, nan => nan
  | posInf, posInf => posInf
  | posInf, negInf => negInf
  | negInf, posInf => negInf
  | negInf, negInf => posInf
  | posInf, fin b => if b = 0 then nan else inf (decide (0 < b))
  | negInf, fin b => if b = 0 then nan else inf (decide (b < 0))
  | fin a, posInf => if a = 0 then nan else inf (decide (0 < a))
  | fin a, negInf => if a = 0 then nan else inf (decide (a < 0))
  | fin a, fin b => R.round (a * b)

/-- The operator `/` on two numbers (a zero divisor is taken as `+0`). -/
def div (R : Rounding) : JSNumber → JSNumber → JSNumber
  | nan, _ => nan
  | _, nan => nan
  | posInf, posInf => nan
  | posInf, negInf => nan
  | negInf, posInf => nan
  | negInf, negInf => nan
  | posInf, fin b => inf (decide (0 ≤ b))
  | negInf, fin b => inf (decide (b < 0))
  | fin _, posInf => fin 0
  | fin _, negInf => fin 0
  | fin a, fin b =>
    if b = 0 then (if a = 0 then nan else inf (decide (0 < a))) else R.round (a / b)

/-- A number that the host can hold: a special value, or a rational that
rounding leaves as it is. -/
def isValue (R : Rounding) : JSNumber → Prop
  | fin q => R.round q = fin q
  | _ => True

end JSNumber

/-- Rounding for evaluating concrete calls: a value from 2^1024 on, or from
-2^1024 down, becomes an infinity, every other value is kept.  On every exact
result that is a double it is the rounding of the doubles. -/
def roundExactly (q : ℚ) : JSNumber :=
  if (2 : ℚ) ^ 1024 ≤ q then .posInf
  else if q ≤ -(2 : ℚ) ^ 1024 then .negInf
  else .fin q

/-- The rounding `roundExactly` with the three facts. -/
def exactRounding : Rounding where
  round := roundExactly
  round_int := by
    intro n hn
    have h1 : ((n.natAbs : ℤ) : ℚ) ≤ (2 : ℚ) ^ 53 := by exact_mod_cast hn
    have h2 : |(n : ℚ)| ≤ (2 : ℚ) ^ 53 := by
      rw [← Int.cast_abs, Int.abs_eq_natAbs]
      exact h1
    have h3 : (2 : ℚ) ^ 53 < (2 : ℚ) ^ 1024 := by norm_num
    have h4 := abs_le.mp h2
    unfold roundExactly
    rw [if_neg (by linarith [h4.2]), if_neg (by linarith [h4.1])]
  round_idem := by
    intro q r h
    unfold roundExactly at h ⊢
    by_cases h1 : (2 : ℚ) ^ 1024 ≤ q
    · rw [if_pos h1] at h
      cases h
    · rw [if_neg h1] at h
      by_cases h2 : q ≤ -(2 : ℚ) ^ 1024
      · rw [if_pos h2] at h
        cases h
      · rw [if_neg h2] at h
        cases h
        rw [if_neg h1, if_neg h2]
  round_large := by
    intro q h
    unfold roundExactly
    rw [if_pos h]

/-- The values a caller passes where the source documents a number:
a number, `null`, or nothing at all (`undefined`). -/
inductive Value where
  | undefined
  | null
  | number (n : JSNumber)
  deriving DecidableEq

namespace Value

/-- The truth value used by `!v` and `v ? a : b`. -/
def toBoolean : Value → Bool
  | undefined => false
  | null => false
  | number n => n.toBoolean

/-- The numeric coercion applied by the arithmetic operators. -/
def toNumber : Value → JSNumber
  | undefined => JSNumber.nan
  | null => JSNumber.fin 0
  | number n => n

end Value

/-! ## Host string functions -/

/-- The two case conversions of `String.prototype`, with the two facts about
them that the constructors rely on: the upper-cased empty string is empty, and
lower-casing a non-empty string leaves it non-empty. -/
structure Host where
  toUpperCase : String → String
  toLowerCase : String → String
  toUpperCase_empty : toUpperCase "" = ""
  toLowerCase_ne_empty : ∀ s : String, s ≠ "" → toLowerCase s ≠ ""

/-- The case conversions restricted to the letters `a`-`z`, `A`-`Z`. -/
def asciiHost : Host where
  toUpperCase s := String.mk (s.data.map Char.toUpper)
  toLowerCase s := String.mk (s.data.map Char.toLower)
  toUpperCase_empty := rfl
  toLowerCase_ne_empty := by
    intro s hs h
    apply hs
    have hd : s.data.map Char.toLower = [] := congrArg String.data h
    exact String.ext (List.map_eq_nil_iff.mp hd)

/-- Two characters that are equal or are the two cases of one of the letters
`a`-`z`. -/
def sameLetter (a b : Char) : Bool :=
  a == b || b == a.toLower || a == b.toLower

/-- The relation "the two character sequences differ only in letter case":
the same length, and at each position two characters with `sameLetter`. -/
def sameLetters : List Char → List Char → Bool
  | [], [] => true
  | a :: as, b :: bs => sameLetter a b && sameLetters as bs
  | _, _ => false

/-- The relation "the two strings differ only in letter case" of the
specification, for the letters `a`-`z`. -/
def differOnlyInCase (s t : String) : Bool := sameLetters s.data t.data

/-! ## Errors -/

/-- What a call throws: `new Error(message)`, or a `TypeError` or `RangeError`
of the runtime. -/
inductive JSError where
  | error (message : String)
  | typeError
  | rangeError
  deriving DecidableEq

def ERROR_UNKNOWN_MENU_ITEM : String := "There\x27s no such item on the menu."
def ERROR_CLOSED_ORDER : String := "The order was closed. You can\x27t edit it anymore."
def ERROR_UNKNOWN_PORTION : String := "Undefined portion size"

/-! ## Helper functions -/

/-- The function `capitalize(string)`: lower-case the string, split it into
letters, upper-case the first one and join.  On the empty string `letters[0]`
is `undefined` and the call of `toUpperCase` on it throws a `TypeError`. -/
def capitalize (H : Host) (string : String) : Except JSError String :=
  match (H.toLowerCase string).data with
  | [] => .error .typeError
  | c :: cs => .ok (H.toUpperCase (String.mk [c]) ++ String.mk cs)

/-- The `length` of a JavaScript string: its number of UTF-16 code units.  A
character outside the Basic Multilingual Plane takes two. -/
def utf16Length (string : String) : Nat :=
  (string.data.map (fun c => if c.toNat < 65536 then 1 else 2)).sum

/-- The function `justify(string, length)`: the string followed by
`length - string.length` spaces.  When the string is longer than `length`,
`Array(length - string.length)` is called with a negative number and throws a
`RangeError`. -/
def justify (string : String) (length : Nat) : Except JSError String :=
  if length < utf16Length string then .error .rangeError
  else .ok (string ++ String.mk (List.replicate (length - utf16Length string) ' '))

/-- The string form of a number: the special values by name, an integer of
magnitude up to 2^53 in its decimal digits.  The digits of the remaining
numbers are the shortest that read back as the same double; they are the
parameter `other`. -/
def numberToString (other : ℚ → String) : JSNumber → String
  | .nan => "NaN"
  | .posInf => "Infinity"
  | .negInf => "-Infinity"
  | .fin q =>
    if q.den = 1 ∧ q.num.natAbs ≤ 2 ^ 53 then toString q.num else other q

/-- The call `array.map(function (item, index) ...)`, with the index of the
first element as last argument. -/
def mapWithIndex {α β : Type} (f : α → Nat → β) : List α → Nat → List β
  | [], _ => []
  | item :: rest, index => f item index :: mapWithIndex f rest (index + 1)

/-- The completions of the callbacks of one `map` call: the first exception
ends the call, otherwise the results are collected. -/
def collect : List (Except JSError String) → Except JSError (List String)
  | [] => .ok []
  | .error e :: _ => .error e
  | .ok line :: rest =>
    match collect rest with
    | .error e => .error e
    | .ok lines => .ok (line :: lines)

/-! ## Menu items -/

/-- A catalog entry such as `Drink.COLA`; the hamburger sizes have no title. -/
structure Params where
  title : Option String
  price : JSNumber
  calories : JSNumber
  deriving DecidableEq

/-- The fields written by the constructor `MenuItem(params)`;
a title of `none` is `undefined`. -/
structure MenuItem where
  title : Option String
  price : JSNumber
  calories : JSNumber
  deriving DecidableEq

/-- The constructor `MenuItem(params)`.  A lookup that found nothing passes
`undefined`, and reading `params.title` then throws a `TypeError`. -/
def MenuItem.init : Option Params → Except JSError MenuItem
  | none => .error .typeError
  | some params => .ok { title := params.title, price := params.price, calories := params.calories }

/-- An object whose prototype chain contains `MenuItem.prototype`. -/
inductive Item where
  | base (m : MenuItem)
  | drink (m : MenuItem)
  | salad (m : MenuItem) (portion : Value)
  | hamburger (m : MenuItem) (size : String) (stuffing : MenuItem)
  deriving DecidableEq

namespace Item

/-- The fields `title`, `price`, `calories` of an item. -/
def fields : Item → MenuItem
  | base m => m
  | drink m => m
  | salad m _ => m
  | hamburger m _ _ => m

def title (i : Item) : Option String := i.fields.title
def price (i : Item) : JSNumber := i.fields.price
def calories (i : Item) : JSNumber := i.fields.calories

end Item

/-! ### Drink -/

def Drink.COLA : Params := { title := some "Cola", price := .fin 50, calories := .fin 40 }
def Drink.COFFEE : Params := { title := some "Coffee", price := .fin 80, calories := .fin 20 }

/-- The property read `Drink[key]`. -/
def Drink.get (key : String) : Option Params :=
  if key = "COLA" then some Drink.COLA
  else if key = "COFFEE" then some Drink.COFFEE
  else none

def Drink.hasOwnProperty (key : String) : Bool := (Drink.get key).isSome

/-- The constructor `Drink(type)`. -/
def Drink (H : Host) (type : String) : Except JSError Item :=
  if !Drink.hasOwnProperty (H.toUpperCase type) then
    .error (.error ERROR_UNKNOWN_MENU_ITEM)
  else
    match MenuItem.init (Drink.get (H.toUpperCase type)) with
    | .error e => .error e
    | .ok m => .ok (.drink m)

/-! ### Salad -/

def Salad.CAESAR : Params := { title := some "Caesar", price := .fin 100, calories := .fin 20 }
def Salad.OLIVIER : Params := { title := some "Olivier", price := .fin 50, calories := .fin 80 }

/-- The property read `Salad[key]`. -/
def Salad.get (key : String) : Option Params :=
  if key = "CAESAR" then some Salad.CAESAR
  else if key = "OLIVIER" then some Salad.OLIVIER
  else none

def Salad.hasOwnProperty (key : String) : Bool := (Salad.get key).isSome

/-- The constructor `Salad(type, portion)`. -/
def Salad (H : Host) (type : String) (portion : Value) : Except JSError Item :=
  if !Salad.hasOwnProperty (H.toUpperCase type) then
    .error (.error ERROR_UNKNOWN_MENU_ITEM)
  else if !portion.toBoolean then
    .error (.error ERROR_UNKNOWN_PORTION)
  else
    match MenuItem.init (Salad.get (H.toUpperCase type)) with
    | .error e => .error e
    | .ok m => .ok (.salad m portion)

/-- The method `Salad.prototype.calculatePrice`: `price * portion / 100`. -/
def Salad.calculatePrice (R : Rounding) (m : MenuItem) (portion : Value) : JSNumber :=
  JSNumber.div R (JSNumber.mul R m.price portion.toNumber) (.fin 100)

/-- The method `Salad.prototype.calculateCalories`: `calories * portion / 100`. -/
def Salad.calculateCalories (R : Rounding) (m : MenuItem) (portion : Value) : JSNumber :=
  JSNumber.div R (JSNumber.mul R m.calories portion.toNumber) (.fin 100)

/-! ### Hamburger -/

def Hamburger.BIG : Params := { title := none, price := .fin 100, calories := .fin 40 }
def Hamburger.SMALL : Params := { title := none, price := .fin 50, calories := .fin 20 }
def Hamburger.STUFFING_CHEESE : Params :=
  { title := some "Cheese", price := .fin 10, calories := .fin 20 }
def Hamburger.STUFFING_SALAD : Params :=
  { title := some "Salad", price := .fin 20, calories := .fin 5 }
def Hamburger.STUFFING_POTATO : Params :=
  { title := some "Potato", price := .fin 15, calories := .fin 10 }

/-- The property read `Hamburger[key]`: sizes and stuffings share one object. -/
def Hamburger.get (key : String) : Option Params :=
  if key = "BIG" then some Hamburger.BIG
  else if key = "SMALL" then some Hamburger.SMALL
  else if key = "STUFFING_CHEESE" then some Hamburger.STUFFING_CHEESE
  else if key = "STUFFING_SALAD" then some Hamburger.STUFFING_SALAD
  else if key = "STUFFING_POTATO" then some Hamburger.STUFFING_POTATO
  else none

def Hamburger.hasOwnProperty (key : String) : Bool := (Hamburger.get key).isSome

/-- The expression `a || b` on strings: `a` unless it is the empty string. -/
def strOr (a b : String) : String := if a = "" then b else a

/-- The constructor `Hamburger(size, stuffing)`.  The guard tests the single
key `size.toUpperCase() || 'STUFFING_' + stuffing.toUpperCase()`; afterwards
the size entry and the stuffing entry are read and handed to `MenuItem`. -/
def Hamburger (H : Host) (size stuffing : String) : Except JSError Item :=
  if !Hamburger.hasOwnProperty
      (strOr (H.toUpperCase size) ("STUFFING_" ++ H.toUpperCase stuffing)) then
    .error (.error ERROR_UNKNOWN_MENU_ITEM)
  else
    match MenuItem.init (Hamburger.get (H.toUpperCase size)) with
    | .error e => .error e
    | .ok m =>
      match capitalize H size with
      | .error e => .error e
      | .ok sz =>
        match MenuItem.init (Hamburger.get ("STUFFING_" ++ H.toUpperCase stuffing)) with
        | .error e => .error e
        | .ok st => .ok (.hamburger { m with title := some "Hamburger" } sz st)

/-- The method `Hamburger.prototype.calculatePrice`: `price + stuffing.price`. -/
def Hamburger.calculatePrice (R : Rounding) (m stuffing : MenuItem) : JSNumber :=
  JSNumber.add R m.price stuffing.price

/-- The method `Hamburger.prototype.calculateCalories`. -/
def Hamburger.calculateCalories (R : Rounding) (m stuffing : MenuItem) : JSNumber :=
  JSNumber.add R m.calories stuffing.calories

/-- The call `item.calculatePrice()`, where the prototype has that method. -/
def Item.calculatePrice (R : Rounding) : Item → Option JSNumber
  | .base _ => none
  | .drink _ => none
  | .salad m portion => some (Salad.calculatePrice R m portion)
  | .hamburger m _ stuffing => some (Hamburger.calculatePrice R m stuffing)

/-- The call `item.calculateCalories()`, where the prototype has that method. -/
def Item.calculateCalories (R : Rounding) : Item → Option JSNumber
  | .base _ => none
  | .drink _ => none
  | .salad m portion => some (Salad.calculateCalories R m portion)
  | .hamburger m _ stuffing => some (Hamburger.calculateCalories R m stuffing)

/-- The string that concatenation makes of a title; `undefined` reads
"undefined". -/
def titleString : Option String → String
  | some title => title
  | none => "undefined"

/-- The string form of an item, as string concatenation obtains it through the
`toString` of its prototype: `MenuItem.prototype.toString` returns the title,
`Salad.prototype.toString` and `Hamburger.prototype.toString` override it. -/
def Item.toString : Item → String
  | .base m => titleString m.title
  | .drink m => titleString m.title
  | .salad m _ => titleString m.title ++ " salad"
  | .hamburger m size stuffing =>
    size ++ " " ++ titleString m.title ++ " w/ " ++ titleString stuffing.title

/-! ## Orders -/

/-- An order object.  `frozen` records that `Object.freeze` has been applied
to the array `items`; `id` is the value read from the counter `Order.id`. -/
structure Order where
  id : Nat
  items : List Item
  frozen : Bool
  paid : Bool
  deriving DecidableEq

/-- What `addItem` may be handed: an instance of `MenuItem`, or any value
that is not one. -/
inductive Argument where
  | menuItem (i : Item)
  | other (v : Value)
  deriving DecidableEq

/-- The result of `ToIntegerOrInfinity`. -/
inductive IntegerOrInfinity where
  | negInf
  | int (k : Int)
  | posInf
  deriving DecidableEq

/-- The abstract operation `ToIntegerOrInfinity`: `NaN` becomes `0`, a finite
number is truncated towards zero. -/
def toIntegerOrInfinity : JSNumber → IntegerOrInfinity
  | .nan => .int 0
  | .posInf => .posInf
  | .negInf => .negInf
  | .fin q => .int (Int.tdiv q.num q.den)

/-- The index at which `splice(start, ...)` begins on an array of length `len`:
a negative `start` counts from the end, and the result is clamped to `0..len`. -/
def spliceStart (len : Nat) (start : JSNumber) : Nat :=
  match toIntegerOrInfinity start with
  | .negInf => 0
  | .posInf => len
  | .int k => if k < 0 then (Int.ofNat len + k).toNat else min k.toNat len

/-- The call `array.splice(start, 1)` on an array that is not frozen: the
removed elements, and the array that is left. -/
def splice1 (array : List Item) (start : JSNumber) : List Item × List Item :=
  let actualStart := spliceStart array.length start
  let deleteCount := min 1 (array.length - actualStart)
  ((array.drop actualStart).take deleteCount,
    array.take actualStart ++ array.drop (actualStart + deleteCount))

namespace Order

/-- The constructor `Order()`, with the counter `Order.id` as explicit state
(`none` while it is unset): `Order.id = (Order.id || 0) + 1`. -/
def create (counter : Option Nat) : Order × Option Nat :=
  let next := counter.getD 0 + 1
  ({ id := next, items := [], frozen := false, paid := false }, some next)

/-- The method `getItemPrice(item)`. -/
def getItemPrice (R : Rounding) (item : Item) : JSNumber :=
  match item.calculatePrice R with
  | some total => total
  | none => item.price

/-- The method `getItemCalories(item)`. -/
def getItemCalories (R : Rounding) (item : Item) : JSNumber :=
  match item.calculateCalories R with
  | some total => total
  | none => item.calories

/-- The method `addItem(newItem)`: the completion of the call, and the order
after it.  `push` on a frozen array throws a `TypeError`. -/
def addItem (o : Order) (newItem : Argument) : Except JSError Unit × Order :=
  if o.paid then
    (.error (.error ERROR_CLOSED_ORDER), o)
  else
    match newItem with
    | .other _ => (.error (.error ERROR_UNKNOWN_MENU_ITEM), o)
    | .menuItem i =>
      if o.frozen then (.error .typeError, o)
      else (.ok (), { o with items := o.items ++ [i] })

/-- The method `removeItem(position)`: the completion of the call (the array
returned by `splice`), and the order after it.  `splice` on a frozen array
throws a `TypeError`. -/
def removeItem (o : Order) (position : Value) : Except JSError (List Item) × Order :=
  if o.paid then
    (.error (.error ERROR_CLOSED_ORDER), o)
  else if o.frozen then
    (.error .typeError, o)
  else
    let r := splice1 o.items position.toNumber.minusOne
    (.ok r.1, { o with items := r.2 })

/-- The call `array.reduce(function (acc, i) { return acc + i })` without an
initial value: the first element starts the accumulator, and an empty array
throws a `TypeError`. -/
def reduceAdd (R : Rounding) : List JSNumber → Except JSError JSNumber
  | [] => .error .typeError
  | x :: xs => .ok (xs.foldl (fun acc i => JSNumber.add R acc i) x)

/-- The method `calculatePrice()`. -/
def calculatePrice (R : Rounding) (o : Order) : Except JSError JSNumber :=
  if o.items.length = 0 then .ok (.fin 0)
  else reduceAdd R (o.items.map (getItemPrice R))

/-- The method `calculateCalories()`. -/
def calculateCalories (R : Rounding) (o : Order) : Except JSError JSNumber :=
  if o.items.length = 0 then .ok (.fin 0)
  else reduceAdd R (o.items.map (getItemCalories R))

/-- The sum i_1 + i_2 + ... + i_n of a sequence of numbers, added from left to
right in the arithmetic of the host; 0 for the empty sequence. -/
def sumLeftToRight (R : Rounding) : List JSNumber → JSNumber
  | [] => .fin 0
  | x :: xs => xs.foldl (fun acc i => JSNumber.add R acc i) x

/-- The method `close()`: freeze the array of items and set `paid`. -/
def close (o : Order) : Order :=
  { o with frozen := true, paid := true }

/-- The text `(index + 1) + ': ' + item` that starts a line of a listing. -/
def label (item : Item) (index : Nat) : String :=
  toString (index + 1) ++ ": " ++ item.toString

/-- The method `getItems()`. -/
def getItems (o : Order) : String :=
  String.intercalate "\n" (mapWithIndex label o.items 0)

/-- The callback of `getItemsWithPriceAndCalories()` for one item. -/
def lineWithPriceAndCalories (R : Rounding) (other : ℚ → String) (item : Item)
    (index : Nat) : Except JSError String :=
  match justify (label item index) 40 with
  | .error e => .error e
  | .ok padded =>
    .ok (padded ++ numberToString other (getItemPrice R item) ++ "₮ ("
      ++ numberToString other (getItemCalories R item) ++ " ccals)")

/-- The method `getItemsWithPriceAndCalories()`. -/
def getItemsWithPriceAndCalories (R : Rounding) (other : ℚ → String) (o : Order) :
    Except JSError String :=
  match collect (mapWithIndex (lineWithPriceAndCalories R other) o.items 0) with
  | .error e => .error e
  | .ok lines => .ok (String.intercalate "\n" lines)

/-- Calling the constructor `Order()` `n` times in a row, starting from the
given counter: the orders in the order of their creation, and the counter
afterwards. -/
def createMany : Nat → Option Nat → List Order × Option Nat
  | 0, counter => ([], counter)
  | n + 1, counter =>
    ((create counter).1 :: (createMany n (create counter).2).1,
      (createMany n (create counter).2).2)

end Order

/-- One call on an order: `addItem`, `removeItem` or `close`. -/
inductive Step where
  | addItem (newItem : Argument)
  | removeItem (position : Value)
  | close

/-- The order after one call, whether the call returned or threw. -/
def Order.step (o : Order) : Step → Order
  | .addItem newItem => (o.addItem newItem).2
  | .removeItem position => (o.removeItem position).2
  | .close => o.close

/-- The order after a sequence of calls. -/
def Order.run (o : Order) (steps : List Step) : Order :=
  steps.foldl Order.step o


/-! ## Auxiliary facts -/

theorem ne_empty_of_upper {H : Host} {s k : String} (h : H.toUpperCase s = k) (hk : k ≠ "") :
    s ≠ "" := by
  intro hs
  apply hk
  rw [← h, hs, H.toUpperCase_empty]

theorem capitalize_ok {H : Host} {s : String} (hs : s ≠ "") :
    ∃ sz, capitalize H s = .ok sz := by
  have hne := H.toLowerCase_ne_empty s hs
  unfold capitalize
  cases hd : (H.toLowerCase s).data with
  | nil => exact absurd (String.ext hd) hne
  | cons c cs => exact ⟨_, rfl⟩

/-! ## Catalog construction -/

/-- C1: construction with a valid catalog key yields the catalog values.
A drink key gives (Cola, 50, 40) or (Coffee, 80, 20); a salad key with a
non-zero portion gives (Caesar, 100, 20) or (Olivier, 50, 80) and keeps the
portion; a size key with a stuffing key gives a hamburger titled "Hamburger"
priced (100, 40) for BIG and (50, 20) for SMALL whose nested stuffing is
(Cheese, 10, 20), (Salad, 20, 5) or (Potato, 15, 10). -/
theorem construction_yields_catalog_values (H : Host) :
    (∀ type, H.toUpperCase type = "COLA" →
      Drink H type = .ok (.drink ⟨some "Cola", .fin 50, .fin 40⟩)) ∧
    (∀ type, H.toUpperCase type = "COFFEE" →
      Drink H type = .ok (.drink ⟨some "Coffee", .fin 80, .fin 20⟩)) ∧
    (∀ type (q : ℚ), H.toUpperCase type = "CAESAR" → q ≠ 0 →
      Salad H type (.number (.fin q))
        = .ok (.salad ⟨some "Caesar", .fin 100, .fin 20⟩ (.number (.fin q)))) ∧
    (∀ type (q : ℚ), H.toUpperCase type = "OLIVIER" → q ≠ 0 →
      Salad H type (.number (.fin q))
        = .ok (.salad ⟨some "Olivier", .fin 50, .fin 80⟩ (.number (.fin q)))) ∧
    (∀ size stuffing sp st,
      (H.toUpperCase size = "BIG" ∧ sp = (JSNumber.fin 100, JSNumber.fin 40) ∨
        H.toUpperCase size = "SMALL" ∧ sp = (JSNumber.fin 50, JSNumber.fin 20)) →
      (H.toUpperCase stuffing = "CHEESE" ∧ st = ⟨some "Cheese", .fin 10, .fin 20⟩ ∨
        H.toUpperCase stuffing = "SALAD" ∧ st = ⟨some "Salad", .fin 20, .fin 5⟩ ∨
        H.toUpperCase stuffing = "POTATO" ∧ st = ⟨some "Potato", .fin 15, .fin 10⟩) →
      ∃ sz, capitalize H size = .ok sz ∧
        Hamburger H size stuffing = .ok (.hamburger ⟨some "Hamburger", sp.1, sp.2⟩ sz st)) := by
  refine ⟨?_, ?_, ?_, ?_, ?_⟩
  · intro type h
    simp [Drink, h, Drink.hasOwnProperty, Drink.get, MenuItem.init, Drink.COLA]
  · intro type h
    simp [Drink, h, Drink.hasOwnProperty, Drink.get, MenuItem.init, Drink.COFFEE]
  · intro type q h hq
    simp [Salad, h, Salad.hasOwnProperty, Salad.get, MenuItem.init, Salad.CAESAR,
      Value.toBoolean, JSNumber.toBoolean, hq]
  · intro type q h hq
    simp [Salad, h, Salad.hasOwnProperty, Salad.get, MenuItem.init, Salad.OLIVIER,
      Value.toBoolean, JSNumber.toBoolean, hq]
  · intro size stuffing sp st hsize hst
    have hne : size ≠ "" := by
      rcases hsize with ⟨h, -⟩ | ⟨h, -⟩
      · exact ne_empty_of_upper h (by decide)
      · exact ne_empty_of_upper h (by decide)
    obtain ⟨sz, hsz⟩ := capitalize_ok (H := H) hne
    refine ⟨sz, hsz, ?_⟩
    rcases hsize with ⟨h, rfl⟩ | ⟨h, rfl⟩ <;>
      rcases hst with ⟨h2, rfl⟩ | ⟨h2, rfl⟩ | ⟨h2, rfl⟩ <;>
      simp [Hamburger, h, h2, hsz, strOr, Hamburger.hasOwnProperty, Hamburger.get, MenuItem.init,
        Hamburger.BIG, Hamburger.SMALL, Hamburger.STUFFING_CHEESE, Hamburger.STUFFING_SALAD,
        Hamburger.STUFFING_POTATO]

/-- Witness for C1: the calls Drink('cola'), Salad('Caesar', 250) and
Hamburger('big', 'potato') under the ASCII case conversions. -/
theorem construction_yields_catalog_values_witness :
    Drink asciiHost "cola" = .ok (.drink ⟨some "Cola", .fin 50, .fin 40⟩) ∧
    Salad asciiHost "Caesar" (.number (.fin 250))
      = .ok (.salad ⟨some "Caesar", .fin 100, .fin 20⟩ (.number (.fin 250))) ∧
    ∃ sz, capitalize asciiHost "big" = .ok sz ∧
      Hamburger asciiHost "big" "potato"
        = .ok (.hamburger ⟨some "Hamburger", .fin 100, .fin 40⟩ sz
            ⟨some "Potato", .fin 15, .fin 10⟩) :=
  ⟨(construction_yields_catalog_values asciiHost).1 "cola" rfl,
   (construction_yields_catalog_values asciiHost).2.2.1 "Caesar" 250 rfl (by norm_num),
   (construction_yields_catalog_values asciiHost).2.2.2.2 "big" "potato"
      (JSNumber.fin 100, JSNumber.fin 40) ⟨some "Potato", .fin 15, .fin 10⟩
      (Or.inl ⟨rfl, rfl⟩) (Or.inr (Or.inr ⟨rfl, rfl⟩))⟩

/-! ## Closed orders -/

/-- C3: on an order that has been closed, `addItem` with any argument and
`removeItem` with any position fail with the closed-order error, and the order
(items, id, paid flag) is the same afterwards. -/
theorem closed_order_rejects_edits (o : Order) :
    (∀ newItem : Argument,
      o.close.addItem newItem = (.error (.error ERROR_CLOSED_ORDER), o.close)) ∧
    (∀ position : Value,
      o.close.removeItem position = (.error (.error ERROR_CLOSED_ORDER), o.close)) ∧
    o.close.items = o.items ∧ o.close.id = o.id ∧ o.close.paid = true :=
  ⟨fun _ => rfl, fun _ => rfl, rfl, rfl, rfl⟩

/-! ## Removing items -/

theorem toIntegerOrInfinity_intCast (k : ℤ) :
    toIntegerOrInfinity (.fin (k : ℚ)) = .int k := by
  simp [toIntegerOrInfinity]

theorem position_minus_one (p : ℤ) :
    (Value.number (.fin (p : ℚ))).toNumber.minusOne = .fin ((p - 1 : ℤ) : ℚ) := by
  simp [Value.toNumber, JSNumber.minusOne]

theorem spliceStart_position (len : Nat) (p : ℤ) :
    spliceStart len ((Value.number (.fin (p : ℚ))).toNumber.minusOne)
      = if p - 1 < 0 then (Int.ofNat len + (p - 1)).toNat else min (p - 1).toNat len := by
  rw [position_minus_one]
  unfold spliceStart
  rw [toIntegerOrInfinity_intCast]

theorem removeItem_open (o : Order) (position : Value) (hpaid : o.paid = false)
    (hfrozen : o.frozen = false) :
    o.removeItem position
      = (.ok (splice1 o.items (position.toNumber.minusOne)).1,
          { o with items := (splice1 o.items (position.toNumber.minusOne)).2 }) := by
  simp [Order.removeItem, hpaid, hfrozen]

theorem spliceStart_beyond (len : Nat) (p : ℤ) (h : (len : ℤ) < p ∨ len = 0) :
    spliceStart len ((Value.number (.fin (p : ℚ))).toNumber.minusOne) = len := by
  rw [spliceStart_position]
  split_ifs with hneg
  · rcases h with h | h
    · omega
    · subst h
      simp only [Int.ofNat_eq_coe]
      omega
  · rcases h with h | h
    · have : len ≤ (p - 1).toNat := by omega
      exact Nat.min_eq_right this
    · subst h
      exact Nat.min_eq_right (Nat.zero_le _)

theorem spliceStart_in_range (len : Nat) (p : ℤ) (h1 : 1 ≤ p) (hn : p ≤ (len : ℤ)) :
    spliceStart len ((Value.number (.fin (p : ℚ))).toNumber.minusOne) = (p - 1).toNat := by
  rw [spliceStart_position]
  split_ifs with hneg
  · omega
  · have : (p - 1).toNat ≤ len := by omega
    exact Nat.min_eq_left this

/-! ## Hamburger validation -/

/-- C4: the guard of `Hamburger` tests one key only.  With a valid size and
an unknown stuffing the call does not fail with the unknown-item error but with
a `TypeError` from `MenuItem`; a stuffing key passed as size is accepted; and an
empty size with a valid stuffing ends in a `TypeError` as well. -/
theorem hamburger_guard_skips_stuffing :
    Hamburger asciiHost "Big" "Ketchup" = .error .typeError ∧
    Hamburger asciiHost "Big" "Ketchup" ≠ .error (.error ERROR_UNKNOWN_MENU_ITEM) ∧
    Hamburger asciiHost "stuffing_cheese" "cheese"
      = .ok (.hamburger ⟨some "Hamburger", .fin 10, .fin 20⟩ "Stuffing_cheese"
          ⟨some "Cheese", .fin 10, .fin 20⟩) ∧
    Hamburger asciiHost "" "cheese" = .error .typeError := by
  refine ⟨rfl, ?_, rfl, rfl⟩
  intro h
  have h2 : Hamburger asciiHost "Big" "Ketchup" = .error .typeError := rfl
  rw [h2] at h
  cases h

/-- C5, as stated, fails: on the open order [Cola, Coffee] the call
`removeItem(0)` removes the last item and `removeItem(-5)` removes the first
one, because `splice` counts a negative start from the end. -/
theorem removeItem_nonpositive_position_removes :
    Order.removeItem
        ⟨1, [.drink ⟨some "Cola", .fin 50, .fin 40⟩, .drink ⟨some "Coffee", .fin 80, .fin 20⟩],
          false, false⟩ (.number (.fin 0))
      = (.ok [.drink ⟨some "Coffee", .fin 80, .fin 20⟩],
          ⟨1, [.drink ⟨some "Cola", .fin 50, .fin 40⟩], false, false⟩) ∧
    Order.removeItem
        ⟨1, [.drink ⟨some "Cola", .fin 50, .fin 40⟩, .drink ⟨some "Coffee", .fin 80, .fin 20⟩],
          false, false⟩ (.number (.fin (-5)))
      = (.ok [.drink ⟨some "Cola", .fin 50, .fin 40⟩],
          ⟨1, [.drink ⟨some "Coffee", .fin 80, .fin 20⟩], false, false⟩) := by
  have h0 := spliceStart_position 2 0
  have h5 := spliceStart_position 2 (-5)
  simp at h0 h5
  constructor
  · simp [Order.removeItem, splice1, h0]
  · simp [Order.removeItem, splice1, h5]

/-- C5, amended: on an open order with n items, `removeItem(position)` with
an integer position greater than n, or with any integer position when the order
is empty, does not fail, returns the empty array and leaves the order as it
was. -/
theorem removeItem_beyond_end (o : Order) (p : ℤ) (hpaid : o.paid = false)
    (hfrozen : o.frozen = false) (h : (o.items.length : ℤ) < p ∨ o.items.length = 0) :
    o.removeItem (.number (.fin (p : ℚ))) = (.ok [], o) := by
  rw [removeItem_open o _ hpaid hfrozen]
  simp only [splice1, spliceStart_beyond _ p h]
  cases o
  simp

/-- Witness for C5, amended: `removeItem(3)` on the open order [Cola, Coffee]. -/
theorem removeItem_beyond_end_witness :
    Order.removeItem
        ⟨1, [.drink ⟨some "Cola", .fin 50, .fin 40⟩, .drink ⟨some "Coffee", .fin 80, .fin 20⟩],
          false, false⟩ (.number (.fin ((3 : ℤ) : ℚ)))
      = (.ok [],
          ⟨1, [.drink ⟨some "Cola", .fin 50, .fin 40⟩, .drink ⟨some "Coffee", .fin 80, .fin 20⟩],
            false, false⟩) :=
  removeItem_beyond_end _ 3 rfl rfl (Or.inl (by decide))

/-- C6: on an open order with items i_1..i_n, `removeItem(p)` with
1 <= p <= n returns the array holding exactly the item i_p and leaves
i_1..i_(p-1), i_(p+1)..i_n: one item fewer, the items before p at their
positions and every later item one position down. -/
theorem removeItem_in_range (o : Order) (p : ℤ) (hpaid : o.paid = false)
    (hfrozen : o.frozen = false) (h1 : 1 ≤ p) (hn : p ≤ (o.items.length : ℤ)) :
    ∃ x, o.items[(p - 1).toNat]? = some x ∧
      o.removeItem (.number (.fin (p : ℚ)))
        = (.ok [x], { o with items := o.items.take (p - 1).toNat ++ o.items.drop p.toNat }) ∧
      (o.removeItem (.number (.fin (p : ℚ)))).2.items.length + 1 = o.items.length ∧
      (∀ j, j < (p - 1).toNat →
        (o.removeItem (.number (.fin (p : ℚ)))).2.items[j]? = o.items[j]?) ∧
      (∀ j, (p - 1).toNat ≤ j →
        (o.removeItem (.number (.fin (p : ℚ)))).2.items[j]? = o.items[j + 1]?) := by
  obtain ⟨k, rfl⟩ : ∃ k : ℕ, p = (k : ℤ) + 1 := ⟨(p - 1).toNat, by omega⟩
  have hk : k < o.items.length := by omega
  have hk1 : ((k : ℤ) + 1 - 1).toNat = k := by omega
  have hk2 : ((k : ℤ) + 1).toNat = k + 1 := by omega
  have hstart := spliceStart_in_range o.items.length ((k : ℤ) + 1) h1 hn
  rw [hk1] at hstart
  have hcount : min 1 (o.items.length - k) = 1 := by omega
  have hrem : o.removeItem (.number (.fin (((k : ℤ) + 1 : ℤ) : ℚ)))
      = (.ok [o.items[k]], { o with items := o.items.eraseIdx k }) := by
    rw [removeItem_open o _ hpaid hfrozen]
    simp only [splice1, hstart, hcount, List.eraseIdx_eq_take_drop_succ]
    congr 2
    rw [List.take_one_drop_eq_of_lt_length hk]
    rfl
  refine ⟨o.items[k], ?_, ?_, ?_, ?_, ?_⟩
  · rw [hk1]
    exact List.getElem?_eq_getElem hk
  · rw [hrem, hk1, hk2, List.eraseIdx_eq_take_drop_succ]
  · rw [hrem]
    simp only [List.length_eraseIdx_of_lt hk]
    omega
  · intro j hj
    rw [hrem]
    rw [hk1] at hj
    exact List.getElem?_eraseIdx_of_lt _ _ _ hj
  · intro j hj
    rw [hrem]
    rw [hk1] at hj
    exact List.getElem?_eraseIdx_of_ge _ _ _ hj

/-- Witness for C6: `removeItem(1)` on the open order [Cola, Coffee]. -/
theorem removeItem_in_range_witness :
    ∃ x, ([Item.drink ⟨some "Cola", .fin 50, .fin 40⟩,
          Item.drink ⟨some "Coffee", .fin 80, .fin 20⟩])[((1 : ℤ) - 1).toNat]? = some x ∧
      Order.removeItem
          ⟨1, [.drink ⟨some "Cola", .fin 50, .fin 40⟩, .drink ⟨some "Coffee", .fin 80, .fin 20⟩],
            false, false⟩ (.number (.fin ((1 : ℤ) : ℚ)))
        = (.ok [x], ⟨1, [.drink ⟨some "Coffee", .fin 80, .fin 20⟩], false, false⟩) := by
  obtain ⟨x, hx, hrem, -⟩ := removeItem_in_range
    ⟨1, [.drink ⟨some "Cola", .fin 50, .fin 40⟩, .drink ⟨some "Coffee", .fin 80, .fin 20⟩],
      false, false⟩ 1 rfl rfl (by decide) (by decide)
  exact ⟨x, hx, hrem⟩

/-! ## Validation of keys and portions -/

/-- C7: `Drink(type)` fails with the unknown-item error exactly when the
upper-cased type is neither COLA nor COFFEE, and `Salad(type, portion)` fails
with the unknown-item error, whatever the portion, when the upper-cased type is
neither CAESAR nor OLIVIER. -/
theorem unknown_key_is_rejected (H : Host) :
    (∀ type, Drink H type = .error (.error ERROR_UNKNOWN_MENU_ITEM) ↔
      (H.toUpperCase type ≠ "COLA" ∧ H.toUpperCase type ≠ "COFFEE")) ∧
    (∀ type portion, H.toUpperCase type ≠ "CAESAR" → H.toUpperCase type ≠ "OLIVIER" →
      Salad H type portion = .error (.error ERROR_UNKNOWN_MENU_ITEM)) := by
  constructor
  · intro type
    by_cases h1 : H.toUpperCase type = "COLA"
    · simp [Drink, h1, Drink.hasOwnProperty, Drink.get, MenuItem.init]
    · by_cases h2 : H.toUpperCase type = "COFFEE"
      · simp [Drink, h2, Drink.hasOwnProperty, Drink.get, MenuItem.init]
      · simp [Drink, h1, h2, Drink.hasOwnProperty, Drink.get]
  · intro type portion h1 h2
    simp [Salad, h1, h2, Salad.hasOwnProperty, Salad.get]

/-- Witness for C7: the calls Drink('Tea') and Salad('Greek', 100). -/
theorem unknown_key_is_rejected_witness :
    Drink asciiHost "Tea" = .error (.error ERROR_UNKNOWN_MENU_ITEM) ∧
    Salad asciiHost "Greek" (.number (.fin 100)) = .error (.error ERROR_UNKNOWN_MENU_ITEM) :=
  ⟨((unknown_key_is_rejected asciiHost).1 "Tea").mpr ⟨by decide, by decide⟩,
   (unknown_key_is_rejected asciiHost).2 "Greek" (.number (.fin 100)) (by decide) (by decide)⟩

/-- C8, as stated, fails: `NaN` is a number other than 0, yet
`Salad('Caesar', NaN)` fails with the undefined-portion error, since `!NaN`
is true. -/
theorem salad_rejects_nan_portion :
    Salad asciiHost "Caesar" (.number .nan) = .error (.error ERROR_UNKNOWN_PORTION) ∧
    Value.number .nan ≠ .number (.fin 0) ∧
    Value.number .nan ≠ .null ∧
    Value.number .nan ≠ .undefined := by
  refine ⟨rfl, ?_, ?_, ?_⟩ <;> intro h <;> cases h

/-- C8, amended: for a valid salad key and a portion that is a number, `null`
or omitted, `Salad(type, portion)` fails with the undefined-portion error
exactly when the portion is falsy, that is 0, `NaN`, `null` or omitted; every
other number is accepted and stored unchanged as the portion of the item. -/
theorem salad_portion_is_checked_for_truth (H : Host) (type : String) (portion : Value)
    (hkey : H.toUpperCase type = "CAESAR" ∨ H.toUpperCase type = "OLIVIER") :
    (Salad H type portion = .error (.error ERROR_UNKNOWN_PORTION) ↔
      (portion = .number (.fin 0) ∨ portion = .number .nan ∨ portion = .null ∨
        portion = .undefined)) ∧
    (∀ n, portion = .number n → n ≠ .fin 0 → n ≠ .nan →
      ∃ m, Salad H type portion = .ok (.salad m portion)) := by
  constructor
  · rcases hkey with h | h <;>
      rcases portion with _ | _ | n <;>
      simp [Salad, h, Salad.hasOwnProperty, Salad.get, MenuItem.init, Value.toBoolean]
    all_goals
      rcases n with _ | _ | _ | q <;> simp [JSNumber.toBoolean]
  · intro n hn h0 hnan
    subst hn
    have ht : (Value.number n).toBoolean = true := by
      rcases n with _ | _ | _ | q
      · exact absurd rfl hnan
      · rfl
      · rfl
      · have hq : q ≠ 0 := fun hq => h0 (by rw [hq])
        simp [Value.toBoolean, JSNumber.toBoolean, hq]
    rcases hkey with h | h <;>
      simp [Salad, h, Salad.hasOwnProperty, Salad.get, MenuItem.init, ht]

/-- Witness for C8, amended: the key 'caesar' with the portion 250. -/
theorem salad_portion_is_checked_for_truth_witness :
    (Salad asciiHost "caesar" (.number (.fin 250)) = .error (.error ERROR_UNKNOWN_PORTION) ↔
      (Value.number (.fin 250) = .number (.fin 0) ∨ Value.number (.fin 250) = .number .nan ∨
        Value.number (.fin 250) = .null ∨ Value.number (.fin 250) = .undefined)) ∧
    (∀ n, Value.number (.fin 250) = .number n → n ≠ .fin 0 → n ≠ .nan →
      ∃ m, Salad asciiHost "caesar" (.number (.fin 250))
        = .ok (.salad m (.number (.fin 250)))) :=
  salad_portion_is_checked_for_truth asciiHost "caesar" (.number (.fin 250)) (Or.inl rfl)

/-! ## Adding items -/

theorem addItem_paid_eq (o : Order) (newItem : Argument) :
    (o.addItem newItem).2.paid = o.paid ∧ (o.addItem newItem).2.id = o.id := by
  unfold Order.addItem
  by_cases hp : o.paid = true
  · simp [hp]
  · cases newItem with
    | other v => simp [hp]
    | menuItem i =>
      by_cases hf : o.frozen = true <;> simp [hp, hf]

theorem removeItem_paid_eq (o : Order) (position : Value) :
    (o.removeItem position).2.paid = o.paid ∧ (o.removeItem position).2.id = o.id := by
  unfold Order.removeItem
  split_ifs <;> exact ⟨rfl, rfl⟩

theorem step_id_eq (o : Order) (s : Step) : (o.step s).id = o.id := by
  cases s with
  | addItem a => exact (addItem_paid_eq o a).2
  | removeItem p => exact (removeItem_paid_eq o p).2
  | close => rfl

theorem step_of_paid (o : Order) (s : Step) (h : o.paid = true) :
    (o.step s).paid = true ∧ (o.step s).items = o.items := by
  cases s with
  | addItem a => simp [Order.step, Order.addItem, h]
  | removeItem p => simp [Order.step, Order.removeItem, h]
  | close => exact ⟨rfl, rfl⟩

theorem run_of_paid (o : Order) (steps : List Step) (h : o.paid = true) :
    (o.run steps).paid = true ∧ (o.run steps).items = o.items := by
  induction steps generalizing o with
  | nil => exact ⟨h, rfl⟩
  | cons s rest ih =>
    have hs := step_of_paid o s h
    have hr := ih (o.step s) hs.1
    exact ⟨hr.1, hr.2.trans hs.2⟩

/-- C11: on an open order with items i_1..i_n, `addItem(x)` with a menu item
x returns normally and leaves i_1..i_n, x: one item more, x in the last place
and every earlier item where it was. -/
theorem addItem_appends (o : Order) (x : Item) (hpaid : o.paid = false)
    (hfrozen : o.frozen = false) :
    o.addItem (.menuItem x) = (.ok (), { o with items := o.items ++ [x] }) ∧
    (o.addItem (.menuItem x)).2.items.length = o.items.length + 1 ∧
    (o.addItem (.menuItem x)).2.items[o.items.length]? = some x ∧
    (∀ j, j < o.items.length →
      (o.addItem (.menuItem x)).2.items[j]? = o.items[j]?) := by
  have h : o.addItem (.menuItem x) = (.ok (), { o with items := o.items ++ [x] }) := by
    simp [Order.addItem, hpaid, hfrozen]
  refine ⟨h, ?_, ?_, ?_⟩
  · rw [h]
    simp
  · rw [h]
    simp
  · intro j hj
    rw [h]
    exact List.getElem?_append_left hj

/-- Witness for C11: adding a Cola to the open order [Coffee]. -/
theorem addItem_appends_witness :
    Order.addItem ⟨1, [.drink ⟨some "Coffee", .fin 80, .fin 20⟩], false, false⟩
        (.menuItem (.drink ⟨some "Cola", .fin 50, .fin 40⟩))
      = (.ok (), ⟨1, [.drink ⟨some "Coffee", .fin 80, .fin 20⟩,
          .drink ⟨some "Cola", .fin 50, .fin 40⟩], false, false⟩) :=
  (addItem_appends ⟨1, [.drink ⟨some "Coffee", .fin 80, .fin 20⟩], false, false⟩
    (.drink ⟨some "Cola", .fin 50, .fin 40⟩) rfl rfl).1

/-- C12, as stated, fails: an object made by `new MenuItem(...)` is not a
Drink, a Salad or a Hamburger, yet `addItem` accepts it, because the test is
`newItem instanceof MenuItem`. -/
theorem addItem_accepts_plain_menu_item :
    Order.addItem ⟨1, [], false, false⟩ (.menuItem (.base ⟨some "Water", .fin 10, .fin 0⟩))
      = (.ok (), ⟨1, [.base ⟨some "Water", .fin 10, .fin 0⟩], false, false⟩) := by
  rfl

/-- C12, amended: on an open order, `addItem(value)` with a value that is not
an instance of `MenuItem` fails with the unknown-item error and leaves the
order as it was. -/
theorem addItem_rejects_other_values (o : Order) (v : Value) (hpaid : o.paid = false) :
    o.addItem (.other v) = (.error (.error ERROR_UNKNOWN_MENU_ITEM), o) := by
  simp [Order.addItem, hpaid]

/-- Witness for C12, amended: `addItem(undefined)` on a new order. -/
theorem addItem_rejects_other_values_witness :
    Order.addItem ⟨1, [], false, false⟩ (.other .undefined)
      = (.error (.error ERROR_UNKNOWN_MENU_ITEM), ⟨1, [], false, false⟩) :=
  addItem_rejects_other_values ⟨1, [], false, false⟩ .undefined rfl

/-! ## Order identifiers -/

theorem createMany_getElem? (n : Nat) (counter : Option Nat) (k : Nat) (hk : k < n) :
    (Order.createMany n counter).1[k]?
      = some ⟨counter.getD 0 + k + 1, [], false, false⟩ := by
  induction n generalizing counter k with
  | zero => omega
  | succ n ih =>
    cases k with
    | zero => simp [Order.createMany, Order.create]
    | succ k =>
      have h := ih (Order.create counter).2 k (by omega)
      simp only [Order.createMany, List.getElem?_cons_succ, h]
      simp [Order.create]
      omega

theorem createMany_length (n : Nat) (counter : Option Nat) :
    (Order.createMany n counter).1.length = n := by
  induction n generalizing counter with
  | zero => rfl
  | succ n ih => simp [Order.createMany, ih]

/-- C13: with the counter `Order.id` as explicit state that starts unset, a
new order has no items and is not paid, the first order has id 1 and the k-th
order has id k; so an order created later has a strictly greater id, no two
orders share an id, and `addItem`, `removeItem` and `close` leave the id as
it is. -/
theorem order_ids_count_up :
    (∀ counter, (Order.create counter).1.items = [] ∧ (Order.create counter).1.paid = false) ∧
    (Order.create none).1.id = 1 ∧
    (∀ n k, k < n →
      (Order.createMany n none).1[k]? = some ⟨k + 1, [], false, false⟩) ∧
    (∀ (n i j : Nat) (a b : Order), (Order.createMany n none).1[i]? = some a →
      (Order.createMany n none).1[j]? = some b → (i < j → a.id < b.id) ∧ (i ≠ j → a.id ≠ b.id)) ∧
    (∀ (o : Order) (steps : List Step), (o.run steps).id = o.id) := by
  refine ⟨fun _ => ⟨rfl, rfl⟩, rfl, ?_, ?_, ?_⟩
  · intro n k hk
    have h := createMany_getElem? n none k hk
    simpa using h
  · intro n i j a b ha hb
    have hlen : ∀ (k : Nat) (x : Order),
        (Order.createMany n none).1[k]? = some x → k < n := by
      intro k x hx
      by_contra hcon
      have hnone : (Order.createMany n none).1[k]? = none :=
        List.getElem?_eq_none (by rw [createMany_length]; omega)
      rw [hnone] at hx
      cases hx
    have hi := createMany_getElem? n none i (hlen i a ha)
    have hj := createMany_getElem? n none j (hlen j b hb)
    rw [ha] at hi
    rw [hb] at hj
    simp only [Option.some.injEq] at hi hj
    subst hi
    subst hj
    simp only [Option.getD_none]
    constructor
    · intro h
      omega
    · intro h
      omega
  · intro o steps
    induction steps generalizing o with
    | nil => rfl
    | cons s rest ih =>
      show ((o.step s).run rest).id = o.id
      rw [ih, step_id_eq]

/-- Witness for C13: of three orders created in a row, the third has id 3. -/
theorem order_ids_count_up_witness :
    (Order.createMany 3 none).1[2]? = some ⟨2 + 1, [], false, false⟩ :=
  order_ids_count_up.2.2.1 3 2 (by decide)

/-! ## Lifecycle -/

/-- C14: over the steps `addItem`, `removeItem` and `close`, returning or
throwing, the closed state is terminal: once `paid` is true it is true after
every further sequence of steps and the items stay those held at that moment,
in particular those held at the first `close()`; and `addItem` or `removeItem`
on an open order leaves it open. -/
theorem closed_is_terminal :
    (∀ (o : Order) (steps : List Step), o.paid = true →
      (o.run steps).paid = true ∧ (o.run steps).items = o.items) ∧
    (∀ (o : Order) (earlier later : List Step),
      (((o.run earlier).close).run later).paid = true ∧
      (((o.run earlier).close).run later).items = (o.run earlier).items) ∧
    (∀ (o : Order) (newItem : Argument), o.paid = false →
      (o.addItem newItem).2.paid = false) ∧
    (∀ (o : Order) (position : Value), o.paid = false →
      (o.removeItem position).2.paid = false) := by
  refine ⟨run_of_paid, ?_, ?_, ?_⟩
  · intro o earlier later
    exact run_of_paid (o.run earlier).close later rfl
  · intro o newItem h
    rw [(addItem_paid_eq o newItem).1, h]
  · intro o position h
    rw [(removeItem_paid_eq o position).1, h]

/-- Witness for C14: a closed order after `addItem`, `removeItem(1)`, `close`. -/
theorem closed_is_terminal_witness :
    (Order.run ⟨1, [.drink ⟨some "Cola", .fin 50, .fin 40⟩], true, true⟩
      [.addItem (.menuItem (.drink ⟨some "Coffee", .fin 80, .fin 20⟩)),
        .removeItem (.number (.fin 1)), .close]).paid = true ∧
    (Order.run ⟨1, [.drink ⟨some "Cola", .fin 50, .fin 40⟩], true, true⟩
      [.addItem (.menuItem (.drink ⟨some "Coffee", .fin 80, .fin 20⟩)),
        .removeItem (.number (.fin 1)), .close]).items
      = [.drink ⟨some "Cola", .fin 50, .fin 40⟩] :=
  closed_is_terminal.1 ⟨1, [.drink ⟨some "Cola", .fin 50, .fin 40⟩], true, true⟩ _ rfl

/-! ## Frame of the order operations -/

/-- C20: `addItem`, `removeItem` and `close` leave the id of an order as it
is; `addItem` and `removeItem` leave `paid` as it is; `close()` sets `paid` and
leaves the items, hence `getItems()`, `calculatePrice()` and
`calculateCalories()`, as they are; and `close()` on a closed order returns
normally and changes nothing. -/
theorem order_operations_frame (o : Order) :
    (∀ newItem, (o.addItem newItem).2.id = o.id) ∧
    (∀ position, (o.removeItem position).2.id = o.id) ∧
    o.close.id = o.id ∧
    (∀ newItem, (o.addItem newItem).2.paid = o.paid) ∧
    (∀ position, (o.removeItem position).2.paid = o.paid) ∧
    o.close.paid = true ∧
    o.close.items = o.items ∧
    o.close.getItems = o.getItems ∧
    (∀ R, o.close.calculatePrice R = o.calculatePrice R) ∧
    (∀ R, o.close.calculateCalories R = o.calculateCalories R) ∧
    o.close.close = o.close :=
  ⟨fun a => (addItem_paid_eq o a).2, fun p => (removeItem_paid_eq o p).2, rfl,
    fun a => (addItem_paid_eq o a).1, fun p => (removeItem_paid_eq o p).1, rfl, rfl, rfl,
    fun _ => rfl, fun _ => rfl, rfl⟩

/-! ## Listings -/

theorem mapWithIndex_length {α β : Type} (f : α → Nat → β) (l : List α) (start : Nat) :
    (mapWithIndex f l start).length = l.length := by
  induction l generalizing start with
  | nil => rfl
  | cons x xs ih => simp [mapWithIndex, ih]

theorem mapWithIndex_getElem? {α β : Type} (f : α → Nat → β) (l : List α) (start k : Nat) :
    (mapWithIndex f l start)[k]? = (l[k]?).map (fun x => f x (start + k)) := by
  induction l generalizing start k with
  | nil => simp [mapWithIndex]
  | cons x xs ih =>
    cases k with
    | zero => simp [mapWithIndex]
    | succ k =>
      simp only [mapWithIndex, List.getElem?_cons_succ, ih]
      congr 1
      funext y
      congr 1
      omega

theorem mapWithIndex_append {α β : Type} (f : α → Nat → β) (l : List α) (x : α)
    (start : Nat) :
    mapWithIndex f (l ++ [x]) start = mapWithIndex f l start ++ [f x (start + l.length)] := by
  induction l generalizing start with
  | nil => simp [mapWithIndex]
  | cons y ys ih =>
    have harg : start + 1 + ys.length = start + (ys.length + 1) := by omega
    have h := ih (start + 1)
    rw [harg] at h
    show f y start :: mapWithIndex f (ys ++ [x]) (start + 1) = _
    rw [h]
    rfl

theorem intercalate_go_append (sep acc b : String) (l : List String) :
    String.intercalate.go acc sep (l ++ [b]) = String.intercalate.go acc sep l ++ sep ++ b := by
  induction l generalizing acc with
  | nil => rfl
  | cons a as ih => exact ih _

theorem intercalate_append_singleton (sep b : String) (l : List String) (h : l ≠ []) :
    String.intercalate sep (l ++ [b]) = String.intercalate sep l ++ sep ++ b := by
  cases l with
  | nil => exact absurd rfl h
  | cons a as => exact intercalate_go_append sep a b as

/-- C17: `getItems()` of an order with items i_1..i_n is made of the n lines
"k: <string form of i_k>", k = 1..n, in the order of the items, joined by
single newline characters with none at the end; it is the empty string for an
order without items, the single line for one item, and grows by a newline and
the new line when an item is appended. -/
theorem getItems_lists_items :
    (∀ o : Order, ∃ lines : List String,
      lines.length = o.items.length ∧
      (∀ k item, o.items[k]? = some item →
        lines[k]? = some (toString (k + 1) ++ ": " ++ item.toString)) ∧
      o.getItems = String.intercalate "\n" lines) ∧
    (∀ id frozen paid, Order.getItems ⟨id, [], frozen, paid⟩ = "") ∧
    (∀ id frozen paid x, Order.getItems ⟨id, [x], frozen, paid⟩ = "1: " ++ x.toString) ∧
    (∀ (o : Order) x, o.items ≠ [] →
      Order.getItems { o with items := o.items ++ [x] }
        = o.getItems ++ "\n" ++ (toString (o.items.length + 1) ++ ": " ++ x.toString)) ∧
    Order.getItems ⟨1, [.hamburger ⟨some "Hamburger", .fin 50, .fin 20⟩ "Small"
          ⟨some "Salad", .fin 20, .fin 5⟩,
        .salad ⟨some "Caesar", .fin 100, .fin 20⟩ (.number (.fin 250)),
        .drink ⟨some "Cola", .fin 50, .fin 40⟩], false, false⟩
      = "1: Small Hamburger w/ Salad\n2: Caesar salad\n3: Cola" := by
  refine ⟨?_, fun _ _ _ => rfl, fun _ _ _ _ => rfl, ?_, rfl⟩
  · intro o
    refine ⟨mapWithIndex Order.label o.items 0, mapWithIndex_length _ _ _, ?_, rfl⟩
    intro k item hk
    rw [mapWithIndex_getElem?, hk]
    simp [Order.label]
  · intro o x hne
    have hne' : mapWithIndex Order.label o.items 0 ≠ [] := by
      intro h
      apply hne
      have := congrArg List.length h
      rw [mapWithIndex_length] at this
      exact List.length_eq_zero.mp this
    simp only [Order.getItems, mapWithIndex_append,
      intercalate_append_singleton _ _ _ hne', Order.label, Nat.zero_add]

/-- Witness for C17: appending a Cola to the order [Coffee]. -/
theorem getItems_lists_items_witness :
    Order.getItems ⟨1, [.drink ⟨some "Coffee", .fin 80, .fin 20⟩,
        .drink ⟨some "Cola", .fin 50, .fin 40⟩], false, false⟩
      = Order.getItems ⟨1, [.drink ⟨some "Coffee", .fin 80, .fin 20⟩], false, false⟩ ++ "\n"
        ++ (toString (1 + 1) ++ ": " ++ (Item.drink ⟨some "Cola", .fin 50, .fin 40⟩).toString) :=
  getItems_lists_items.2.2.2.1 ⟨1, [.drink ⟨some "Coffee", .fin 80, .fin 20⟩], false, false⟩
    (.drink ⟨some "Cola", .fin 50, .fin 40⟩) (by simp)

/-! ## Letter case -/

theorem toLower_toUpper (c : Char) : Char.toLower (Char.toUpper c) = Char.toLower c := by
  by_cases h : 97 ≤ c.toNat ∧ c.toNat ≤ 122
  · have key : ∀ n : Nat, 97 ≤ n → n ≤ 122 →
        Char.toLower (Char.toUpper (Char.ofNat n)) = Char.toLower (Char.ofNat n) := by
      intro n h1 h2
      interval_cases n <;> rfl
    have := key c.toNat h.1 h.2
    rwa [Char.ofNat_toNat] at this
  · have hu : Char.toUpper c = c := by
      unfold Char.toUpper
      exact if_neg h
    rw [hu]

theorem toUpper_toLower (c : Char) : Char.toUpper (Char.toLower c) = Char.toUpper c := by
  by_cases h : 65 ≤ c.toNat ∧ c.toNat ≤ 90
  · have key : ∀ n : Nat, 65 ≤ n → n ≤ 90 →
        Char.toUpper (Char.toLower (Char.ofNat n)) = Char.toUpper (Char.ofNat n) := by
      intro n h1 h2
      interval_cases n <;> rfl
    have := key c.toNat h.1 h.2
    rwa [Char.ofNat_toNat] at this
  · have hu : Char.toLower c = c := by
      unfold Char.toLower
      exact if_neg h
    rw [hu]

theorem toLower_toLower (c : Char) : Char.toLower (Char.toLower c) = Char.toLower c := by
  by_cases h : 65 ≤ c.toNat ∧ c.toNat ≤ 90
  · have key : ∀ n : Nat, 65 ≤ n → n ≤ 90 →
        Char.toLower (Char.toLower (Char.ofNat n)) = Char.toLower (Char.ofNat n) := by
      intro n h1 h2
      interval_cases n <;> rfl
    have := key c.toNat h.1 h.2
    rwa [Char.ofNat_toNat] at this
  · have hu : Char.toLower c = c := by
      unfold Char.toLower
      exact if_neg h
    rw [hu]
    exact hu

theorem sameLetter_case (a b : Char) (h : sameLetter a b = true) :
    Char.toUpper a = Char.toUpper b ∧ Char.toLower a = Char.toLower b := by
  simp only [sameLetter, Bool.or_eq_true, beq_iff_eq] at h
  rcases h with (h | h) | h
  · subst h
    exact ⟨rfl, rfl⟩
  · subst h
    exact ⟨(toUpper_toLower a).symm, (toLower_toLower a).symm⟩
  · subst h
    exact ⟨toUpper_toLower b, toLower_toLower b⟩

theorem sameLetters_case (s t : List Char) (h : sameLetters s t = true) :
    s.map Char.toUpper = t.map Char.toUpper ∧ s.map Char.toLower = t.map Char.toLower := by
  induction s generalizing t with
  | nil =>
    cases t with
    | nil => exact ⟨rfl, rfl⟩
    | cons b bs => simp [sameLetters] at h
  | cons a as ih =>
    cases t with
    | nil => simp [sameLetters] at h
    | cons b bs =>
      simp only [sameLetters, Bool.and_eq_true] at h
      have h1 := sameLetter_case a b h.1
      have h2 := ih bs h.2
      simp [h1.1, h1.2, h2.1, h2.2]

theorem differOnlyInCase_ascii (s t : String) (h : differOnlyInCase s t = true) :
    asciiHost.toUpperCase s = asciiHost.toUpperCase t ∧
    asciiHost.toLowerCase s = asciiHost.toLowerCase t := by
  have := sameLetters_case s.data t.data h
  exact ⟨congrArg String.mk this.1, congrArg String.mk this.2⟩

theorem ascii_lower_of_upper (s : String) :
    asciiHost.toLowerCase s = asciiHost.toLowerCase (asciiHost.toUpperCase s) := by
  show String.mk (s.data.map Char.toLower)
    = String.mk ((s.data.map Char.toUpper).map Char.toLower)
  rw [List.map_map]
  congr 1
  apply List.map_congr_left
  intro c _
  exact (toLower_toUpper c).symm

theorem capitalize_congr (H : Host) (s t : String) (h : H.toLowerCase s = H.toLowerCase t) :
    capitalize H s = capitalize H t := by
  unfold capitalize
  rw [h]

theorem drink_congr (H : Host) (k₁ k₂ : String) (h : H.toUpperCase k₁ = H.toUpperCase k₂) :
    Drink H k₁ = Drink H k₂ := by
  unfold Drink
  rw [h]

theorem salad_congr (H : Host) (k₁ k₂ : String) (p : Value)
    (h : H.toUpperCase k₁ = H.toUpperCase k₂) : Salad H k₁ p = Salad H k₂ p := by
  unfold Salad
  rw [h]

theorem hamburger_congr (H : Host) (s₁ s₂ t₁ t₂ : String)
    (hs : H.toUpperCase s₁ = H.toUpperCase s₂) (hl : H.toLowerCase s₁ = H.toLowerCase s₂)
    (ht : H.toUpperCase t₁ = H.toUpperCase t₂) :
    Hamburger H s₁ t₁ = Hamburger H s₂ t₂ := by
  unfold Hamburger
  rw [hs, ht, capitalize_congr H s₁ s₂ hl]

/-- C15: catalog keys are case-insensitive.  Keys with the same upper-cased
form give the same outcome of `Drink` and, for every portion, of `Salad`; sizes
with the same upper- and lower-cased forms and stuffings with the same
upper-cased form give the same outcome of `Hamburger`.  Under the case
conversions of the letters a-z, strings that differ only in letter case give
the same outcome (equal items or the same failure) of all three constructors,
with the same capitalized size and the same string form of the hamburger. -/
theorem catalog_keys_ignore_case :
    (∀ (H : Host) k₁ k₂, H.toUpperCase k₁ = H.toUpperCase k₂ →
      Drink H k₁ = Drink H k₂ ∧ ∀ p, Salad H k₁ p = Salad H k₂ p) ∧
    (∀ (H : Host) s₁ s₂ t₁ t₂, H.toUpperCase s₁ = H.toUpperCase s₂ →
      H.toLowerCase s₁ = H.toLowerCase s₂ → H.toUpperCase t₁ = H.toUpperCase t₂ →
      Hamburger H s₁ t₁ = Hamburger H s₂ t₂) ∧
    (∀ k₁ k₂, differOnlyInCase k₁ k₂ = true →
      Drink asciiHost k₁ = Drink asciiHost k₂ ∧
      ∀ p, Salad asciiHost k₁ p = Salad asciiHost k₂ p) ∧
    (∀ s₁ s₂ t₁ t₂, differOnlyInCase s₁ s₂ = true → differOnlyInCase t₁ t₂ = true →
      Hamburger asciiHost s₁ t₁ = Hamburger asciiHost s₂ t₂ ∧
      capitalize asciiHost s₁ = capitalize asciiHost s₂ ∧
      ∀ h₁ h₂, Hamburger asciiHost s₁ t₁ = .ok h₁ → Hamburger asciiHost s₂ t₂ = .ok h₂ →
        h₁.toString = h₂.toString) := by
  refine ⟨?_, ?_, ?_, ?_⟩
  · intro H k₁ k₂ h
    exact ⟨drink_congr H k₁ k₂ h, fun p => salad_congr H k₁ k₂ p h⟩
  · intro H s₁ s₂ t₁ t₂ hs hl ht
    exact hamburger_congr H s₁ s₂ t₁ t₂ hs hl ht
  · intro k₁ k₂ h
    have hk := differOnlyInCase_ascii k₁ k₂ h
    exact ⟨drink_congr _ k₁ k₂ hk.1, fun p => salad_congr _ k₁ k₂ p hk.1⟩
  · intro s₁ s₂ t₁ t₂ hs ht
    have h1 := differOnlyInCase_ascii s₁ s₂ hs
    have h2 := differOnlyInCase_ascii t₁ t₂ ht
    have heq := hamburger_congr asciiHost s₁ s₂ t₁ t₂ h1.1 h1.2 h2.1
    refine ⟨heq, capitalize_congr _ s₁ s₂ h1.2, ?_⟩
    intro h₁ h₂ e₁ e₂
    rw [heq, e₂] at e₁
    cases e₁
    rfl

/-- Witness for C15: 'sMALL', 'Salad' and 'Small', 'sALAD' give the same
hamburger, and 'COLA' and 'cola' the same drink. -/
theorem catalog_keys_ignore_case_witness :
    Hamburger asciiHost "sMALL" "Salad" = Hamburger asciiHost "Small" "sALAD" ∧
    Drink asciiHost "COLA" = Drink asciiHost "cola" :=
  ⟨(catalog_keys_ignore_case.2.2.2 "sMALL" "Small" "Salad" "sALAD" (by decide) (by decide)).1,
   (catalog_keys_ignore_case.2.2.1 "COLA" "cola" (by decide)).1⟩

/-! ## String forms -/

theorem capitalize_ascii_of_upper (s k : String) (h : asciiHost.toUpperCase s = k) :
    capitalize asciiHost s = capitalize asciiHost k := by
  apply capitalize_congr
  rw [ascii_lower_of_upper s, h]

/-- C16: the string form of a drink is its catalog title; of a salad built
with a non-zero portion, the title followed by " salad"; of a hamburger,
"<Size> Hamburger w/ <StuffingTitle>", where <Size> is the result of
`capitalize` on the size argument, which under the case conversions of the
letters a-z is "Big" for every spelling of BIG and "Small" for every spelling
of SMALL; `Hamburger('sMALL', 'salad')` reads "Small Hamburger w/ Salad". -/
theorem item_string_forms :
    (∀ (H : Host) type, H.toUpperCase type = "COLA" →
      ∃ item, Drink H type = .ok item ∧ item.toString = "Cola") ∧
    (∀ (H : Host) type, H.toUpperCase type = "COFFEE" →
      ∃ item, Drink H type = .ok item ∧ item.toString = "Coffee") ∧
    (∀ (H : Host) type (q : ℚ), H.toUpperCase type = "CAESAR" → q ≠ 0 →
      ∃ item, Salad H type (.number (.fin q)) = .ok item ∧ item.toString = "Caesar salad") ∧
    (∀ (H : Host) type (q : ℚ), H.toUpperCase type = "OLIVIER" → q ≠ 0 →
      ∃ item, Salad H type (.number (.fin q)) = .ok item ∧ item.toString = "Olivier salad") ∧
    (∀ (H : Host) size stuffing title,
      (H.toUpperCase size = "BIG" ∨ H.toUpperCase size = "SMALL") →
      (H.toUpperCase stuffing = "CHEESE" ∧ title = "Cheese" ∨
        H.toUpperCase stuffing = "SALAD" ∧ title = "Salad" ∨
        H.toUpperCase stuffing = "POTATO" ∧ title = "Potato") →
      ∃ item sz, Hamburger H size stuffing = .ok item ∧ capitalize H size = .ok sz ∧
        item.toString = sz ++ " Hamburger w/ " ++ title) ∧
    (∀ size, asciiHost.toUpperCase size = "BIG" → capitalize asciiHost size = .ok "Big") ∧
    (∀ size, asciiHost.toUpperCase size = "SMALL" →
      capitalize asciiHost size = .ok "Small") ∧
    (∃ item, Hamburger asciiHost "sMALL" "salad" = .ok item ∧
      item.toString = "Small Hamburger w/ Salad") := by
  refine ⟨?_, ?_, ?_, ?_, ?_, ?_, ?_, ?_⟩
  · intro H type h
    exact ⟨.drink ⟨some "Cola", .fin 50, .fin 40⟩,
      by simp [Drink, h, Drink.hasOwnProperty, Drink.get, MenuItem.init, Drink.COLA], rfl⟩
  · intro H type h
    exact ⟨.drink ⟨some "Coffee", .fin 80, .fin 20⟩,
      by simp [Drink, h, Drink.hasOwnProperty, Drink.get, MenuItem.init, Drink.COFFEE], rfl⟩
  · intro H type q h hq
    exact ⟨.salad ⟨some "Caesar", .fin 100, .fin 20⟩ (.number (.fin q)),
      by simp [Salad, h, Salad.hasOwnProperty, Salad.get, MenuItem.init, Salad.CAESAR,
        Value.toBoolean, JSNumber.toBoolean, hq], rfl⟩
  · intro H type q h hq
    exact ⟨.salad ⟨some "Olivier", .fin 50, .fin 80⟩ (.number (.fin q)),
      by simp [Salad, h, Salad.hasOwnProperty, Salad.get, MenuItem.init, Salad.OLIVIER,
        Value.toBoolean, JSNumber.toBoolean, hq], rfl⟩
  · intro H size stuffing title hsize hst
    have hne : size ≠ "" := by
      rcases hsize with h | h
      · exact ne_empty_of_upper h (by decide)
      · exact ne_empty_of_upper h (by decide)
    obtain ⟨sz, hsz⟩ := capitalize_ok (H := H) hne
    have hform : ∀ t : String,
        sz ++ " " ++ titleString (some "Hamburger") ++ " w/ " ++ titleString (some t)
          = sz ++ " Hamburger w/ " ++ t := by
      intro t
      apply String.ext
      simp [titleString, String.data_append]
    rcases hsize with h | h <;> rcases hst with ⟨h2, rfl⟩ | ⟨h2, rfl⟩ | ⟨h2, rfl⟩ <;>
      simp [Hamburger, h, h2, hsz, strOr, Hamburger.hasOwnProperty, Hamburger.get, MenuItem.init,
        Hamburger.BIG, Hamburger.SMALL, Hamburger.STUFFING_CHEESE, Hamburger.STUFFING_SALAD,
        Hamburger.STUFFING_POTATO, Item.toString, hform]
  · intro size h
    rw [capitalize_ascii_of_upper size "BIG" h]
    rfl
  · intro size h
    rw [capitalize_ascii_of_upper size "SMALL" h]
    rfl
  · exact ⟨.hamburger ⟨some "Hamburger", .fin 50, .fin 20⟩ "Small"
      ⟨some "Salad", .fin 20, .fin 5⟩, rfl, rfl⟩

/-- Witness for C16: the spellings 'cola' and 'bIg'. -/
theorem item_string_forms_witness :
    (∃ item, Drink asciiHost "cola" = .ok item ∧ item.toString = "Cola") ∧
    capitalize asciiHost "bIg" = .ok "Big" :=
  ⟨item_string_forms.1 asciiHost "cola" rfl, item_string_forms.2.2.2.2.2.1 "bIg" rfl⟩

/-! ## Arithmetic of the host -/

namespace JSNumber

theorem add_int (R : Rounding) (a b : ℤ) (h : (a + b).natAbs ≤ 2 ^ 53) :
    add R (fin (a : ℚ)) (fin (b : ℚ)) = fin ((a + b : ℤ) : ℚ) := by
  show R.round ((a : ℚ) + (b : ℚ)) = _
  rw [← Int.cast_add]
  exact R.round_int _ h

theorem mul_int (R : Rounding) (a b : ℤ) (h : (a * b).natAbs ≤ 2 ^ 53) :
    mul R (fin (a : ℚ)) (fin (b : ℚ)) = fin ((a * b : ℤ) : ℚ) := by
  show R.round ((a : ℚ) * (b : ℚ)) = _
  rw [← Int.cast_mul]
  exact R.round_int _ h

theorem div_int (R : Rounding) (a b k : ℤ) (hb : b ≠ 0) (hk : a = b * k)
    (h : k.natAbs ≤ 2 ^ 53) :
    div R (fin (a : ℚ)) (fin (b : ℚ)) = fin (k : ℚ) := by
  have hb' : (b : ℚ) ≠ 0 := by exact_mod_cast hb
  have hq : (a : ℚ) / (b : ℚ) = (k : ℚ) := by
    rw [hk, Int.cast_mul, mul_div_cancel_left₀ _ hb']
  show (if (b : ℚ) = 0 then _ else R.round ((a : ℚ) / (b : ℚ))) = _
  rw [if_neg hb', hq]
  exact R.round_int _ h

theorem isValue_round (R : Rounding) (q : ℚ) : isValue R (R.round q) := by
  cases h : R.round q with
  | fin r => exact R.round_idem q r h
  | nan => trivial
  | posInf => trivial
  | negInf => trivial

theorem isValue_int (R : Rounding) (n : ℤ) (h : n.natAbs ≤ 2 ^ 53) :
    isValue R (fin (n : ℚ)) :=
  R.round_int n h

theorem isValue_inf (R : Rounding) (b : Bool) : isValue R (inf b) := by
  cases b <;> trivial

theorem isValue_add (R : Rounding) (a b : JSNumber) : isValue R (add R a b) := by
  cases a <;> cases b <;> first | trivial | exact isValue_round R _

theorem isValue_div (R : Rounding) (a b : JSNumber) : isValue R (div R a b) := by
  cases a with
  | nan => cases b <;> trivial
  | posInf => cases b <;> first | trivial | exact isValue_inf R _
  | negInf => cases b <;> first | trivial | exact isValue_inf R _
  | fin x =>
    cases b with
    | nan => trivial
    | posInf => exact isValue_int R 0 (by decide)
    | negInf => exact isValue_int R 0 (by decide)
    | fin y =>
      show isValue R (if y = 0 then (if x = 0 then nan else inf (decide (0 < x)))
        else R.round (x / y))
      split_ifs
      · trivial
      · exact isValue_inf R _
      · exact isValue_round R _

theorem zero_add_value (R : Rounding) (x : JSNumber) (h : isValue R x) :
    add R (fin 0) x = x := by
  cases x with
  | fin q =>
    show R.round (0 + q) = fin q
    rw [zero_add]
    exact h
  | nan => rfl
  | posInf => rfl
  | negInf => rfl

end JSNumber

theorem foldl_add_int (R : Rounding) (ns : List ℤ) (a : ℤ)
    (h : a.natAbs + (ns.map Int.natAbs).sum ≤ 2 ^ 53) :
    (ns.map (fun n : ℤ => JSNumber.fin (n : ℚ))).foldl (fun acc i => JSNumber.add R acc i)
        (JSNumber.fin (a : ℚ))
      = JSNumber.fin ((a + ns.sum : ℤ) : ℚ) := by
  induction ns generalizing a with
  | nil => simp
  | cons n ns ih =>
    simp only [List.map_cons, List.sum_cons, List.foldl_cons] at h ⊢
    have hle : (a + n).natAbs ≤ a.natAbs + n.natAbs := Int.natAbs_add_le a n
    rw [JSNumber.add_int R a n (by omega), ih (a + n) (by omega), add_assoc]

theorem sumLeftToRight_int (R : Rounding) (ns : List ℤ)
    (h : (ns.map Int.natAbs).sum ≤ 2 ^ 53) :
    Order.sumLeftToRight R (ns.map (fun n : ℤ => JSNumber.fin (n : ℚ)))
      = JSNumber.fin ((ns.sum : ℤ) : ℚ) := by
  cases ns with
  | nil => simp [Order.sumLeftToRight]
  | cons n ns =>
    simp only [List.map_cons, List.sum_cons] at h ⊢
    exact foldl_add_int R ns n h

theorem reduce_eq_sumLeftToRight (R : Rounding) (f : Item → JSNumber) (items : List Item) :
    (if items.length = 0 then Except.ok (JSNumber.fin 0)
      else Order.reduceAdd R (items.map f)) = .ok (Order.sumLeftToRight R (items.map f)) := by
  cases items with
  | nil => rfl
  | cons x xs => simp [Order.reduceAdd, Order.sumLeftToRight]

theorem calculatePrice_eq_sum (R : Rounding) (o : Order) :
    o.calculatePrice R = .ok (Order.sumLeftToRight R (o.items.map (Order.getItemPrice R))) :=
  reduce_eq_sumLeftToRight R _ _

theorem calculateCalories_eq_sum (R : Rounding) (o : Order) :
    o.calculateCalories R
      = .ok (Order.sumLeftToRight R (o.items.map (Order.getItemCalories R))) :=
  reduce_eq_sumLeftToRight R _ _

/-! ## Order totals -/

/-- C2: the totals of an order are the sums of the items' contributions.
`calculatePrice()` returns the sum of `getItemPrice` over the items and
`calculateCalories()` the sum of `getItemCalories`, added from left to right in
the arithmetic of the host; when the contributions are whole numbers whose
absolute values sum to at most 2^53 that is their exact sum; a salad or a
hamburger contributes the value of its own method and a drink its flat field;
both totals are 0 for an empty order; and the order built from
Hamburger('Small', 'Salad'), Salad('Caesar', 250) and Drink('Cola') totals
price 370 and calories 115. -/
theorem order_totals_are_item_sums :
    (∀ (R : Rounding) (o : Order),
      o.calculatePrice R
        = .ok (Order.sumLeftToRight R (o.items.map (Order.getItemPrice R))) ∧
      o.calculateCalories R
        = .ok (Order.sumLeftToRight R (o.items.map (Order.getItemCalories R)))) ∧
    (∀ (R : Rounding) (o : Order) (ns : List ℤ),
      o.items.map (Order.getItemPrice R) = ns.map (fun n : ℤ => JSNumber.fin (n : ℚ)) →
      (ns.map Int.natAbs).sum ≤ 2 ^ 53 →
      o.calculatePrice R = .ok (.fin ((ns.sum : ℤ) : ℚ))) ∧
    (∀ (R : Rounding) (o : Order) (ns : List ℤ),
      o.items.map (Order.getItemCalories R) = ns.map (fun n : ℤ => JSNumber.fin (n : ℚ)) →
      (ns.map Int.natAbs).sum ≤ 2 ^ 53 →
      o.calculateCalories R = .ok (.fin ((ns.sum : ℤ) : ℚ))) ∧
    (∀ (R : Rounding) m portion,
      Order.getItemPrice R (.salad m portion) = Salad.calculatePrice R m portion ∧
      Order.getItemCalories R (.salad m portion) = Salad.calculateCalories R m portion) ∧
    (∀ (R : Rounding) m size stuffing,
      Order.getItemPrice R (.hamburger m size stuffing)
        = Hamburger.calculatePrice R m stuffing ∧
      Order.getItemCalories R (.hamburger m size stuffing)
        = Hamburger.calculateCalories R m stuffing) ∧
    (∀ (R : Rounding) m, Order.getItemPrice R (.drink m) = m.price ∧
      Order.getItemCalories R (.drink m) = m.calories) ∧
    (∀ (R : Rounding) id frozen paid,
      Order.calculatePrice R ⟨id, [], frozen, paid⟩ = .ok (.fin 0) ∧
      Order.calculateCalories R ⟨id, [], frozen, paid⟩ = .ok (.fin 0)) ∧
    (∃ h s d,
      Hamburger asciiHost "Small" "Salad" = .ok h ∧
      Salad asciiHost "Caesar" (.number (.fin 250)) = .ok s ∧
      Drink asciiHost "Cola" = .ok d ∧
      (((((Order.create none).1.addItem (.menuItem h)).2.addItem (.menuItem s)).2.addItem
        (.menuItem d)).2.items = [h, s, d]) ∧
      (∀ R : Rounding,
        ((((Order.create none).1.addItem (.menuItem h)).2.addItem (.menuItem s)).2.addItem
          (.menuItem d)).2.calculatePrice R = .ok (.fin 370)) ∧
      (∀ R : Rounding,
        ((((Order.create none).1.addItem (.menuItem h)).2.addItem (.menuItem s)).2.addItem
          (.menuItem d)).2.calculateCalories R = .ok (.fin 115))) := by
  refine ⟨?_, ?_, ?_, ?_, ?_, ?_, ?_, ?_⟩
  · intro R o
    exact ⟨calculatePrice_eq_sum R o, calculateCalories_eq_sum R o⟩
  · intro R o ns hns hsum
    rw [calculatePrice_eq_sum, hns, sumLeftToRight_int R ns hsum]
  · intro R o ns hns hsum
    rw [calculateCalories_eq_sum, hns, sumLeftToRight_int R ns hsum]
  · intro R m portion
    exact ⟨rfl, rfl⟩
  · intro R m size stuffing
    exact ⟨rfl, rfl⟩
  · intro R m
    exact ⟨rfl, rfl⟩
  · intro R id frozen paid
    exact ⟨rfl, rfl⟩
  · refine ⟨.hamburger ⟨some "Hamburger", .fin 50, .fin 20⟩ "Small" ⟨some "Salad", .fin 20, .fin 5⟩,
      .salad ⟨some "Caesar", .fin 100, .fin 20⟩ (.number (.fin 250)),
      .drink ⟨some "Cola", .fin 50, .fin 40⟩, rfl, ?_, rfl, ?_, ?_, ?_⟩
    · simp [Salad, asciiHost, Salad.hasOwnProperty, Salad.get, MenuItem.init, Salad.CAESAR,
        Value.toBoolean, JSNumber.toBoolean]
    · simp [Order.create, Order.addItem]
    · intro R
      have h1 := JSNumber.add_int R 50 20 (by decide)
      have h2 := JSNumber.mul_int R 100 250 (by decide)
      have h3 := JSNumber.div_int R 25000 100 250 (by decide) (by decide) (by decide)
      have h4 := JSNumber.add_int R 70 250 (by decide)
      have h5 := JSNumber.add_int R 320 50 (by decide)
      norm_num at h1 h2 h3 h4 h5
      simp [Order.create, Order.addItem, Order.calculatePrice, Order.reduceAdd,
        Order.getItemPrice, Item.calculatePrice, Hamburger.calculatePrice, Salad.calculatePrice,
        Item.price, Item.fields, Value.toNumber, h1, h2, h3, h4, h5]
    · intro R
      have h1 := JSNumber.add_int R 20 5 (by decide)
      have h2 := JSNumber.mul_int R 20 250 (by decide)
      have h3 := JSNumber.div_int R 5000 100 50 (by decide) (by decide) (by decide)
      have h4 := JSNumber.add_int R 25 50 (by decide)
      have h5 := JSNumber.add_int R 75 40 (by decide)
      norm_num at h1 h2 h3 h4 h5
      simp [Order.create, Order.addItem, Order.calculateCalories, Order.reduceAdd,
        Order.getItemCalories, Item.calculateCalories, Hamburger.calculateCalories,
        Salad.calculateCalories, Item.calories, Item.fields, Value.toNumber, h1, h2, h3, h4, h5]

/-- Witness for C2: the order [Cola, Coffee] has the whole-number prices 50
and 80 and totals 130. -/
theorem order_totals_are_item_sums_witness :
    Order.calculatePrice exactRounding
        ⟨1, [.drink ⟨some "Cola", .fin 50, .fin 40⟩, .drink ⟨some "Coffee", .fin 80, .fin 20⟩],
          false, false⟩
      = .ok (.fin ((([50, 80] : List ℤ).sum : ℤ) : ℚ)) :=
  order_totals_are_item_sums.2.1 exactRounding _ [50, 80]
    (by simp [Order.getItemPrice, Item.calculatePrice, Item.price, Item.fields])
    (by decide)

/-! ## Item totals -/

theorem add_literals (R : Rounding) (a b : ℕ) [a.AtLeastTwo] [b.AtLeastTwo]
    (h : a + b ≤ 2 ^ 53) :
    JSNumber.add R (.fin (OfNat.ofNat a)) (.fin (OfNat.ofNat b))
      = .fin (OfNat.ofNat a + OfNat.ofNat b) := by
  have key := JSNumber.add_int R (a : ℤ) (b : ℤ) (by omega)
  simpa using key

theorem salad_exact (R : Rounding) (u p : ℤ) (h : (u * p).natAbs ≤ 2 ^ 53)
    (hd : (100 : ℤ) ∣ u * p) :
    JSNumber.div R (JSNumber.mul R (.fin (u : ℚ)) (.fin (p : ℚ))) (.fin 100)
      = .fin ((u : ℚ) * (p : ℚ) / 100) := by
  obtain ⟨k, hk⟩ := hd
  have hk' : k.natAbs ≤ 2 ^ 53 := by
    have : (u * p).natAbs = 100 * k.natAbs := by rw [hk, Int.natAbs_mul]; rfl
    omega
  have hdiv := JSNumber.div_int R (u * p) 100 k (by decide) hk hk'
  have hval : (u : ℚ) * (p : ℚ) / 100 = (k : ℚ) := by
    have : ((u * p : ℤ) : ℚ) = ((100 * k : ℤ) : ℚ) := by rw [hk]
    push_cast at this
    rw [this]
    field_simp
  rw [JSNumber.mul_int R u p h, hval]
  simpa using hdiv

theorem salad_price_huge (R : Rounding) :
    JSNumber.div R (JSNumber.mul R (.fin 100) (.fin (2 ^ 1023))) (.fin 100) = .posInf := by
  have h : JSNumber.mul R (.fin 100) (.fin (2 ^ 1023)) = .posInf :=
    R.round_large _ (by norm_num)
  rw [h]
  simp [JSNumber.div, JSNumber.inf]

/-- C9, as stated, fails: the portion 2^1023 is accepted, the product
100 * 2^1023 is beyond the largest double and becomes `Infinity`, and
`calculatePrice()` returns `Infinity`, not the rational 100 * 2^1023 / 100. -/
theorem salad_price_overflows :
    Salad asciiHost "Caesar" (.number (.fin (2 ^ 1023)))
      = .ok (.salad ⟨some "Caesar", .fin 100, .fin 20⟩ (.number (.fin (2 ^ 1023)))) ∧
    (∀ R : Rounding,
      Item.calculatePrice R
          (.salad ⟨some "Caesar", .fin 100, .fin 20⟩ (.number (.fin (2 ^ 1023))))
        = some .posInf) ∧
    JSNumber.posInf ≠ .fin (100 * 2 ^ 1023 / 100) := by
  refine ⟨?_, ?_, ?_⟩
  · simp [Salad, asciiHost, Salad.hasOwnProperty, Salad.get, MenuItem.init, Salad.CAESAR,
      Value.toBoolean, JSNumber.toBoolean]
  · intro R
    simp only [Item.calculatePrice, Salad.calculatePrice, Value.toNumber, salad_price_huge]
  · intro h
    cases h

/-- C9, amended: a constructed salad with catalog unit price u, unit
calories c and portion p has `calculatePrice()` equal to u * p / 100 and
`calculateCalories()` equal to c * p / 100 as the host computes them, each
operation rounded to a double; for a whole-number portion these are the exact
rationals whenever the product is a multiple of 100 of magnitude at most 2^53;
and `Salad('Caesar', 250)` gives 250 and 50. -/
theorem salad_totals_scale_with_portion :
    (∀ (H : Host) (R : Rounding) type portion item, Salad H type portion = .ok item →
      ∃ entry, Salad.get (H.toUpperCase type) = some entry ∧
        item.calculatePrice R
          = some (JSNumber.div R (JSNumber.mul R entry.price portion.toNumber) (.fin 100)) ∧
        item.calculateCalories R
          = some (JSNumber.div R (JSNumber.mul R entry.calories portion.toNumber)
              (.fin 100))) ∧
    (∀ (H : Host) (R : Rounding) type (p : ℤ) item,
      Salad H type (.number (.fin (p : ℚ))) = .ok item →
      ∃ title, ∃ u c : ℤ,
        Salad.get (H.toUpperCase type) = some ⟨title, .fin (u : ℚ), .fin (c : ℚ)⟩ ∧
        ((u * p).natAbs ≤ 2 ^ 53 → (100 : ℤ) ∣ u * p →
          item.calculatePrice R = some (.fin ((u : ℚ) * (p : ℚ) / 100))) ∧
        ((c * p).natAbs ≤ 2 ^ 53 → (100 : ℤ) ∣ c * p →
          item.calculateCalories R = some (.fin ((c : ℚ) * (p : ℚ) / 100)))) ∧
    (∃ item, Salad asciiHost "Caesar" (.number (.fin 250)) = .ok item ∧
      ∀ R : Rounding, item.calculatePrice R = some (.fin 250) ∧
        item.calculateCalories R = some (.fin 50)) := by
  refine ⟨?_, ?_, ?_⟩
  · intro H R type portion item h
    unfold Salad at h
    split_ifs at h with hk hp
    cases hg : Salad.get (H.toUpperCase type) with
    | none => simp [Salad.hasOwnProperty, hg] at hk
    | some entry =>
      rw [hg] at h
      simp only [MenuItem.init, Except.ok.injEq] at h
      subst h
      exact ⟨entry, rfl, rfl, rfl⟩
  · intro H R type p item h
    unfold Salad at h
    split_ifs at h with hk hp
    by_cases h1 : H.toUpperCase type = "CAESAR"
    · simp only [h1, Salad.get, MenuItem.init, if_true, Except.ok.injEq] at h
      subst h
      refine ⟨some "Caesar", 100, 20, by simp [h1, Salad.get, Salad.CAESAR], ?_, ?_⟩
      · intro hb hd
        have := salad_exact R 100 p hb hd
        simpa [Item.calculatePrice, Salad.calculatePrice, Salad.CAESAR, Value.toNumber]
          using this
      · intro hb hd
        have := salad_exact R 20 p hb hd
        simpa [Item.calculateCalories, Salad.calculateCalories, Salad.CAESAR, Value.toNumber]
          using this
    · by_cases h2 : H.toUpperCase type = "OLIVIER"
      · simp only [h2, Salad.get, MenuItem.init, Except.ok.injEq] at h
        simp at h
        subst h
        refine ⟨some "Olivier", 50, 80, by simp [h2, Salad.get, Salad.OLIVIER], ?_, ?_⟩
        · intro hb hd
          have := salad_exact R 50 p hb hd
          simpa [Item.calculatePrice, Salad.calculatePrice, Salad.OLIVIER, Value.toNumber]
            using this
        · intro hb hd
          have := salad_exact R 80 p hb hd
          simpa [Item.calculateCalories, Salad.calculateCalories, Salad.OLIVIER,
            Value.toNumber] using this
      · simp [Salad.hasOwnProperty, Salad.get, h1, h2] at hk
  · refine ⟨.salad ⟨some "Caesar", .fin 100, .fin 20⟩ (.number (.fin 250)), ?_, ?_⟩
    · simp [Salad, asciiHost, Salad.hasOwnProperty, Salad.get, MenuItem.init, Salad.CAESAR,
        Value.toBoolean, JSNumber.toBoolean]
    · intro R
      have h1 := salad_exact R 100 250 (by decide) (by decide)
      have h2 := salad_exact R 20 250 (by decide) (by decide)
      norm_num at h1 h2
      exact ⟨by simp [Item.calculatePrice, Salad.calculatePrice, Value.toNumber, h1],
        by simp [Item.calculateCalories, Salad.calculateCalories, Value.toNumber, h2]⟩

/-- Witness for C9, amended: the salad built by `Salad('olivier', 150)` costs
75 and has 120 calories. -/
theorem salad_totals_scale_with_portion_witness :
    ∃ title, ∃ u c : ℤ,
      Salad.get (asciiHost.toUpperCase "olivier") = some ⟨title, .fin (u : ℚ), .fin (c : ℚ)⟩ ∧
      ((u * 150).natAbs ≤ 2 ^ 53 → (100 : ℤ) ∣ u * 150 →
        (Item.salad ⟨some "Olivier", .fin 50, .fin 80⟩
          (.number (.fin ((150 : ℤ) : ℚ)))).calculatePrice exactRounding
          = some (.fin ((u : ℚ) * ((150 : ℤ) : ℚ) / 100))) ∧
      ((c * 150).natAbs ≤ 2 ^ 53 → (100 : ℤ) ∣ c * 150 →
        (Item.salad ⟨some "Olivier", .fin 50, .fin 80⟩
          (.number (.fin ((150 : ℤ) : ℚ)))).calculateCalories exactRounding
          = some (.fin ((c : ℚ) * ((150 : ℤ) : ℚ) / 100))) :=
  salad_totals_scale_with_portion.2.1 asciiHost exactRounding "olivier" 150
    (.salad ⟨some "Olivier", .fin 50, .fin 80⟩ (.number (.fin ((150 : ℤ) : ℚ))))
    (by simp [Salad, asciiHost, Salad.hasOwnProperty, Salad.get, MenuItem.init, Salad.OLIVIER,
      Value.toBoolean, JSNumber.toBoolean])

/-- C10: for a size key BIG or SMALL and a stuffing key CHEESE, SALAD or
POTATO the hamburger is built, `calculatePrice()` is the size's catalog price
plus the stuffing's catalog price and `calculateCalories()` the size's catalog
calories plus the stuffing's; `Hamburger('Small', 'Salad')` gives 70 and 25. -/
theorem hamburger_totals_add_stuffing :
    (∀ (H : Host) (R : Rounding) size stuffing,
      (H.toUpperCase size = "BIG" ∨ H.toUpperCase size = "SMALL") →
      (H.toUpperCase stuffing = "CHEESE" ∨ H.toUpperCase stuffing = "SALAD" ∨
        H.toUpperCase stuffing = "POTATO") →
      ∃ item t₁ t₂, ∃ p₁ c₁ p₂ c₂ : ℚ,
        Hamburger H size stuffing = .ok item ∧
        Hamburger.get (H.toUpperCase size) = some ⟨t₁, .fin p₁, .fin c₁⟩ ∧
        Hamburger.get ("STUFFING_" ++ H.toUpperCase stuffing) = some ⟨t₂, .fin p₂, .fin c₂⟩ ∧
        item.calculatePrice R = some (.fin (p₁ + p₂)) ∧
        item.calculateCalories R = some (.fin (c₁ + c₂))) ∧
    (∃ item, Hamburger asciiHost "Small" "Salad" = .ok item ∧
      ∀ R : Rounding, item.calculatePrice R = some (.fin 70) ∧
        item.calculateCalories R = some (.fin 25)) := by
  constructor
  · intro H R size stuffing hsize hst
    have hne : size ≠ "" := by
      rcases hsize with h | h
      · exact ne_empty_of_upper h (by decide)
      · exact ne_empty_of_upper h (by decide)
    obtain ⟨sz, hsz⟩ := capitalize_ok (H := H) hne
    rcases hsize with h | h <;> rcases hst with h2 | h2 | h2 <;>
      simp [Hamburger, h, h2, hsz, strOr, Hamburger.hasOwnProperty, Hamburger.get, MenuItem.init,
        Hamburger.BIG, Hamburger.SMALL, Hamburger.STUFFING_CHEESE, Hamburger.STUFFING_SALAD,
        Hamburger.STUFFING_POTATO, Item.calculatePrice, Item.calculateCalories,
        Hamburger.calculatePrice, Hamburger.calculateCalories] <;>
      exact ⟨_, _, _, _, ⟨rfl, rfl, rfl⟩, _, _, ⟨rfl, rfl, rfl⟩,
        add_literals R _ _ (by norm_num), add_literals R _ _ (by norm_num)⟩
  · refine ⟨.hamburger ⟨some "Hamburger", .fin 50, .fin 20⟩ "Small" ⟨some "Salad", .fin 20, .fin 5⟩,
      rfl, ?_⟩
    intro R
    have h1 := add_literals R 50 20 (by norm_num)
    have h2 := add_literals R 20 5 (by norm_num)
    norm_num at h1 h2
    exact ⟨by simp [Item.calculatePrice, Hamburger.calculatePrice, h1],
      by simp [Item.calculateCalories, Hamburger.calculateCalories, h2]⟩

/-- Witness for C10: the call Hamburger('BIG', 'cheese'). -/
theorem hamburger_totals_add_stuffing_witness :
    ∃ item t₁ t₂, ∃ p₁ c₁ p₂ c₂ : ℚ,
      Hamburger asciiHost "BIG" "cheese" = .ok item ∧
      Hamburger.get (asciiHost.toUpperCase "BIG") = some ⟨t₁, .fin p₁, .fin c₁⟩ ∧
      Hamburger.get ("STUFFING_" ++ asciiHost.toUpperCase "cheese")
        = some ⟨t₂, .fin p₂, .fin c₂⟩ ∧
      item.calculatePrice exactRounding = some (.fin (p₁ + p₂)) ∧
      item.calculateCalories exactRounding = some (.fin (c₁ + c₂)) :=
  hamburger_totals_add_stuffing.1 asciiHost exactRounding "BIG" "cheese" (Or.inl rfl)
    (Or.inl rfl)

/-! ## Listings with prices -/

theorem utf16Length_append (s t : String) :
    utf16Length (s ++ t) = utf16Length s + utf16Length t := by
  simp [utf16Length, String.data_append]

theorem utf16Length_spaces (n : Nat) :
    utf16Length (String.mk (List.replicate n ' ')) = n := by
  induction n with
  | zero => rfl
  | succ n ih =>
    have hcons : utf16Length (String.mk (List.replicate (n + 1) ' '))
        = 1 + utf16Length (String.mk (List.replicate n ' ')) := by
      simp [utf16Length, List.replicate_succ]
    rw [hcons, ih]
    omega

theorem justify_of_le (s : String) (n : Nat) (h : utf16Length s ≤ n) :
    justify s n = .ok (s ++ String.mk (List.replicate (n - utf16Length s) ' ')) ∧
    utf16Length (s ++ String.mk (List.replicate (n - utf16Length s) ' ')) = n := by
  constructor
  · simp [justify, Nat.not_lt.mpr h]
  · rw [utf16Length_append, utf16Length_spaces]
    omega

theorem collect_lines (R : Rounding) (other : ℚ → String) (items : List Item) (start : Nat)
    (h : ∀ k item, items[k]? = some item →
      utf16Length (Order.label item (start + k)) ≤ 40) :
    collect (mapWithIndex (Order.lineWithPriceAndCalories R other) items start)
      = .ok (mapWithIndex (fun item index =>
          Order.label item index
            ++ String.mk (List.replicate (40 - utf16Length (Order.label item index)) ' ')
            ++ numberToString other (Order.getItemPrice R item) ++ "₮ ("
            ++ numberToString other (Order.getItemCalories R item) ++ " ccals)")
          items start) := by
  induction items generalizing start with
  | nil => rfl
  | cons x xs ih =>
    have hx : utf16Length (Order.label x start) ≤ 40 := by
      have := h 0 x (by simp)
      simpa using this
    have hrest := ih (start + 1) (by
      intro k item hk
      have := h (k + 1) item (by simpa using hk)
      have harg : start + 1 + k = start + (k + 1) := by omega
      rw [harg]
      exact this)
    simp only [mapWithIndex, Order.lineWithPriceAndCalories, (justify_of_le _ 40 hx).1, collect]
    rw [hrest]

/-- C18, as stated, fails: `addItem` accepts an item whose title has 43
characters, the label "1: ..." is then 46 code units long, and
`getItemsWithPriceAndCalories()` throws a `RangeError` from `Array(-6)` inside
`justify`. -/
theorem listing_with_prices_fails_on_long_label :
    (Order.addItem (Order.create none).1
      (.menuItem (.base ⟨some "Sparkling mineral water with lemon and mint", .fin 10, .fin 0⟩))).1
      = .ok () ∧
    (∀ (R : Rounding) (other : ℚ → String),
      Order.getItemsWithPriceAndCalories R other
        (Order.addItem (Order.create none).1
          (.menuItem
            (.base ⟨some "Sparkling mineral water with lemon and mint", .fin 10, .fin 0⟩))).2
        = .error .rangeError) ∧
    utf16Length "1: Sparkling mineral water with lemon and mint" = 46 ∧
    justify "1: Sparkling mineral water with lemon and mint" 40 = .error .rangeError := by
  refine ⟨rfl, fun _ _ => rfl, rfl, rfl⟩

/-- C18, amended: `justify(s, 40)` returns s followed by 40 - s.length
spaces, 40 code units in all, for every s of length at most 40; and for an
order in which every label "k: <string form of i_k>" has length at most 40,
`getItemsWithPriceAndCalories()` returns normally, and its line k is that label
padded with spaces to length 40, then the price of the item, "₮ (", its
calories and " ccals)", the lines joined by newline characters. -/
theorem listing_with_prices_pads_labels (R : Rounding) (other : ℚ → String) :
    (∀ s : String, utf16Length s ≤ 40 →
      justify s 40 = .ok (s ++ String.mk (List.replicate (40 - utf16Length s) ' ')) ∧
      utf16Length (s ++ String.mk (List.replicate (40 - utf16Length s) ' ')) = 40) ∧
    (∀ o : Order,
      (∀ k item, o.items[k]? = some item → utf16Length (Order.label item k) ≤ 40) →
      ∃ lines : List String,
        o.getItemsWithPriceAndCalories R other = .ok (String.intercalate "\n" lines) ∧
        lines.length = o.items.length ∧
        ∀ k item, o.items[k]? = some item →
          lines[k]? = some (Order.label item k
            ++ String.mk (List.replicate (40 - utf16Length (Order.label item k)) ' ')
            ++ numberToString other (Order.getItemPrice R item) ++ "₮ ("
            ++ numberToString other (Order.getItemCalories R item) ++ " ccals)")) := by
  refine ⟨fun s hs => justify_of_le s 40 hs, ?_⟩
  intro o h
  have hc := collect_lines R other o.items 0 (by simpa using h)
  refine ⟨mapWithIndex (fun item index =>
      Order.label item index
        ++ String.mk (List.replicate (40 - utf16Length (Order.label item index)) ' ')
        ++ numberToString other (Order.getItemPrice R item) ++ "₮ ("
        ++ numberToString other (Order.getItemCalories R item) ++ " ccals)") o.items 0,
    ?_, mapWithIndex_length _ _ _, ?_⟩
  · simp only [Order.getItemsWithPriceAndCalories, hc]
  · intro k item hk
    rw [mapWithIndex_getElem?, hk]
    simp

/-- Witness for C18, amended: the order [Cola] lists as one padded line. -/
theorem listing_with_prices_pads_labels_witness :
    ∃ lines : List String,
      Order.getItemsWithPriceAndCalories exactRounding (fun _ => "")
          ⟨1, [.drink ⟨some "Cola", .fin 50, .fin 40⟩], false, false⟩
        = .ok (String.intercalate "\n" lines) ∧
      lines.length = 1 ∧
      lines[0]? = some "1: Cola                                 50₮ (40 ccals)" := by
  obtain ⟨lines, h1, h2, h3⟩ := (listing_with_prices_pads_labels exactRounding (fun _ => "")).2
    ⟨1, [.drink ⟨some "Cola", .fin 50, .fin 40⟩], false, false⟩
    (by
      intro k item hk
      cases k with
      | zero =>
        simp at hk
        subst hk
        decide
      | succ k => simp at hk)
  exact ⟨lines, h1, h2, h3 0 _ rfl⟩

/-! ## Totals under edits -/

theorem eraseIdx_append_last (l : List Item) (x : Item) :
    (l ++ [x]).eraseIdx l.length = l := by
  induction l with
  | nil => rfl
  | cons y ys ih => simp [ih]

theorem map_eraseIdx {α β : Type} (f : α → β) (l : List α) (k : Nat) :
    (l.eraseIdx k).map f = (l.map f).eraseIdx k := by
  induction l generalizing k with
  | nil => rfl
  | cons y ys ih =>
    cases k with
    | zero => rfl
    | succ k => simp [ih]

theorem sum_eraseIdx_int (ns : List ℤ) (k : Nat) (n : ℤ) (h : ns[k]? = some n) :
    (ns.eraseIdx k).sum = ns.sum - n ∧
    ((ns.eraseIdx k).map Int.natAbs).sum + n.natAbs = (ns.map Int.natAbs).sum := by
  induction ns generalizing k with
  | nil => simp at h
  | cons y ys ih =>
    cases k with
    | zero =>
      simp only [List.getElem?_cons_zero, Option.some.injEq] at h
      subst h
      simp
      omega
    | succ k =>
      have := ih k (by simpa using h)
      simp only [List.eraseIdx_cons_succ, List.sum_cons, List.map_cons]
      omega

theorem natAbs_sum_le (ns : List ℤ) : ns.sum.natAbs ≤ (ns.map Int.natAbs).sum := by
  induction ns with
  | nil => simp
  | cons y ys ih =>
    simp only [List.sum_cons, List.map_cons]
    have := Int.natAbs_add_le y ys.sum
    omega

theorem removeItem_at (o : Order) (p : ℤ) (hpaid : o.paid = false) (hfrozen : o.frozen = false)
    (h1 : 1 ≤ p) (hn : p ≤ (o.items.length : ℤ)) :
    (o.removeItem (.number (.fin (p : ℚ)))).2
      = { o with items := o.items.eraseIdx (p - 1).toNat } := by
  have hstart := spliceStart_in_range o.items.length p h1 hn
  have hcount : min 1 (o.items.length - (p - 1).toNat) = 1 := by omega
  rw [removeItem_open o _ hpaid hfrozen]
  simp only [splice1, hstart, hcount, List.eraseIdx_eq_take_drop_succ]

theorem sum_after_append (R : Rounding) (l : List JSNumber) (x : JSNumber)
    (hx : JSNumber.isValue R x) :
    Order.sumLeftToRight R (l ++ [x]) = JSNumber.add R (Order.sumLeftToRight R l) x := by
  cases l with
  | nil => exact (JSNumber.zero_add_value R x hx).symm
  | cons y ys => simp [Order.sumLeftToRight, List.foldl_append]

theorem item_values (H : Host) (R : Rounding) (x : Item)
    (h : (∃ type, Drink H type = .ok x) ∨ (∃ type portion, Salad H type portion = .ok x) ∨
      (∃ size stuffing, Hamburger H size stuffing = .ok x)) :
    JSNumber.isValue R (Order.getItemPrice R x) ∧
    JSNumber.isValue R (Order.getItemCalories R x) := by
  cases x with
  | salad m portion => exact ⟨JSNumber.isValue_div R _ _, JSNumber.isValue_div R _ _⟩
  | hamburger m size stuffing => exact ⟨JSNumber.isValue_add R _ _, JSNumber.isValue_add R _ _⟩
  | base m =>
    exfalso
    rcases h with ⟨type, h⟩ | ⟨type, portion, h⟩ | ⟨size, stuffing, h⟩
    · unfold Drink at h
      split_ifs at h
      split at h <;> cases h
    · unfold Salad at h
      split_ifs at h
      split at h <;> cases h
    · unfold Hamburger at h
      split_ifs at h
      split at h
      · cases h
      · split at h
        · cases h
        · split at h <;> cases h
  | drink m =>
    rcases h with ⟨type, h⟩ | ⟨type, portion, h⟩ | ⟨size, stuffing, h⟩
    · unfold Drink at h
      split_ifs at h with hk
      by_cases h1 : H.toUpperCase type = "COLA"
      · simp only [h1, Drink.get, MenuItem.init, if_true, Except.ok.injEq, Item.drink.injEq]
          at h
        subst h
        exact ⟨JSNumber.isValue_int R 50 (by decide), JSNumber.isValue_int R 40 (by decide)⟩
      · by_cases h2 : H.toUpperCase type = "COFFEE"
        · simp only [h2, Drink.get, MenuItem.init] at h
          simp at h
          subst h
          exact ⟨JSNumber.isValue_int R 80 (by decide), JSNumber.isValue_int R 20 (by decide)⟩
        · simp [Drink.hasOwnProperty, Drink.get, h1, h2] at hk
    · unfold Salad at h
      split_ifs at h
      split at h <;> cases h
    · unfold Hamburger at h
      split_ifs at h
      split at h
      · cases h
      · split at h
        · cases h
        · split at h <;> cases h

theorem total_after_remove_int (R : Rounding) (f : Item → JSNumber) (items : List Item)
    (k : Nat) (x : Item) (ns : List ℤ) (hx : items[k]? = some x)
    (hns : items.map f = ns.map (fun n : ℤ => JSNumber.fin (n : ℚ)))
    (hsum : (ns.map Int.natAbs).sum ≤ 2 ^ 53) :
    Order.sumLeftToRight R ((items.eraseIdx k).map f)
      = JSNumber.sub R (Order.sumLeftToRight R (items.map f)) (f x) := by
  have hk : (items.map f)[k]? = some (f x) := by simp [hx]
  rw [hns] at hk
  obtain ⟨n, hn, hfx⟩ : ∃ n, ns[k]? = some n ∧ f x = JSNumber.fin (n : ℚ) := by
    rw [List.getElem?_map] at hk
    cases hg : ns[k]? with
    | none => simp [hg] at hk
    | some n =>
      rw [hg] at hk
      simp only [Option.map_some', Option.some.injEq] at hk
      exact ⟨n, rfl, hk.symm⟩
  have herase := sum_eraseIdx_int ns k n hn
  have hle := natAbs_sum_le (ns.eraseIdx k)
  rw [map_eraseIdx, hns, ← map_eraseIdx,
    sumLeftToRight_int R (ns.eraseIdx k) (by omega), sumLeftToRight_int R ns hsum, hfx]
  have hneg : JSNumber.neg (JSNumber.fin (n : ℚ)) = JSNumber.fin (((-n : ℤ)) : ℚ) := by
    simp [JSNumber.neg]
  rw [JSNumber.sub, hneg, JSNumber.add_int R ns.sum (-n) (by
    have : ns.sum + -n = (ns.eraseIdx k).sum := by omega
    rw [this]
    omega)]
  congr 2
  omega

/-- C19, as stated, fails: a salad with the portion `Infinity` is accepted
and costs `Infinity`; removing it from the order that holds only it leaves the
total 0, while the total before minus the removed price is
`Infinity - Infinity`, that is `NaN`. -/
theorem total_after_removing_infinite_price :
    Salad asciiHost "Caesar" (.number .posInf)
      = .ok (.salad ⟨some "Caesar", .fin 100, .fin 20⟩ (.number .posInf)) ∧
    (∀ R : Rounding,
      Order.getItemPrice R (.salad ⟨some "Caesar", .fin 100, .fin 20⟩ (.number .posInf))
        = .posInf ∧
      Order.calculatePrice R
          ⟨1, [.salad ⟨some "Caesar", .fin 100, .fin 20⟩ (.number .posInf)], false, false⟩
        = .ok .posInf ∧
      (Order.removeItem
          ⟨1, [.salad ⟨some "Caesar", .fin 100, .fin 20⟩ (.number .posInf)], false, false⟩
          (.number (.fin 1))).2.calculatePrice R = .ok (.fin 0) ∧
      JSNumber.sub R .posInf .posInf = .nan) ∧
    JSNumber.nan ≠ .fin 0 := by
  refine ⟨rfl, ?_, ?_⟩
  · intro R
    have hprice : Order.getItemPrice R
        (.salad ⟨some "Caesar", .fin 100, .fin 20⟩ (.number .posInf)) = .posInf := by
      simp [Order.getItemPrice, Item.calculatePrice, Salad.calculatePrice, Value.toNumber,
        JSNumber.mul, JSNumber.div, JSNumber.inf]
    have h1 := spliceStart_position 1 1
    simp at h1
    refine ⟨hprice, ?_, ?_, rfl⟩
    · simp [Order.calculatePrice, Order.reduceAdd, hprice]
    · simp [Order.removeItem, splice1, h1, Order.calculatePrice]
  · intro h
    cases h

/-- C19, amended: on an open order, `calculatePrice()` after `addItem(x)` is
the total before plus `getItemPrice(x)` for every item x whose price is a
number of the host, as it is for every Drink, Salad and Hamburger; removing
the last item, the total before is the total after plus the price of the
removed item; for an in-range position p of an order whose prices are whole
numbers with absolute values summing to at most 2^53, the total after
`removeItem(p)` is the total before minus the removed price; the same holds for
`calculateCalories()` with `getItemCalories`; and adding an item and then
removing the last position gives back the order, hence both totals. -/
theorem totals_track_edits (R : Rounding) (o : Order) (hpaid : o.paid = false)
    (hfrozen : o.frozen = false) :
    (∀ x, JSNumber.isValue R (Order.getItemPrice R x) →
      ∃ before, o.calculatePrice R = .ok before ∧
        (o.addItem (.menuItem x)).2.calculatePrice R
          = .ok (JSNumber.add R before (Order.getItemPrice R x))) ∧
    (∀ x, JSNumber.isValue R (Order.getItemCalories R x) →
      ∃ before, o.calculateCalories R = .ok before ∧
        (o.addItem (.menuItem x)).2.calculateCalories R
          = .ok (JSNumber.add R before (Order.getItemCalories R x))) ∧
    (∀ (H : Host) x,
      ((∃ type, Drink H type = .ok x) ∨ (∃ type portion, Salad H type portion = .ok x) ∨
        (∃ size stuffing, Hamburger H size stuffing = .ok x)) →
      JSNumber.isValue R (Order.getItemPrice R x) ∧
      JSNumber.isValue R (Order.getItemCalories R x)) ∧
    (∀ earlier x, o.items = earlier ++ [x] → JSNumber.isValue R (Order.getItemPrice R x) →
      ∃ before after, o.calculatePrice R = .ok before ∧
        (o.removeItem (.number (.fin ((o.items.length : ℤ) : ℚ)))).2.calculatePrice R
          = .ok after ∧
        before = JSNumber.add R after (Order.getItemPrice R x)) ∧
    (∀ earlier x, o.items = earlier ++ [x] → JSNumber.isValue R (Order.getItemCalories R x) →
      ∃ before after, o.calculateCalories R = .ok before ∧
        (o.removeItem (.number (.fin ((o.items.length : ℤ) : ℚ)))).2.calculateCalories R
          = .ok after ∧
        before = JSNumber.add R after (Order.getItemCalories R x)) ∧
    (∀ (p : ℤ) x (ns : List ℤ), 1 ≤ p → p ≤ (o.items.length : ℤ) →
      o.items[(p - 1).toNat]? = some x →
      o.items.map (Order.getItemPrice R) = ns.map (fun n : ℤ => JSNumber.fin (n : ℚ)) →
      (ns.map Int.natAbs).sum ≤ 2 ^ 53 →
      ∃ before after, o.calculatePrice R = .ok before ∧
        (o.removeItem (.number (.fin (p : ℚ)))).2.calculatePrice R = .ok after ∧
        after = JSNumber.sub R before (Order.getItemPrice R x)) ∧
    (∀ (p : ℤ) x (ns : List ℤ), 1 ≤ p → p ≤ (o.items.length : ℤ) →
      o.items[(p - 1).toNat]? = some x →
      o.items.map (Order.getItemCalories R) = ns.map (fun n : ℤ => JSNumber.fin (n : ℚ)) →
      (ns.map Int.natAbs).sum ≤ 2 ^ 53 →
      ∃ before after, o.calculateCalories R = .ok before ∧
        (o.removeItem (.number (.fin (p : ℚ)))).2.calculateCalories R = .ok after ∧
        after = JSNumber.sub R before (Order.getItemCalories R x)) ∧
    (∀ x, ((o.addItem (.menuItem x)).2.removeItem
        (.number (.fin (((o.items.length : ℤ) + 1 : ℤ) : ℚ)))).2 = o) := by
  have hadd : ∀ x, (o.addItem (.menuItem x)).2 = { o with items := o.items ++ [x] } := by
    intro x
    simp [Order.addItem, hpaid, hfrozen]
  have hlast : ∀ earlier x, o.items = earlier ++ [x] →
      (o.removeItem (.number (.fin ((o.items.length : ℤ) : ℚ)))).2
        = { o with items := earlier } := by
    intro earlier x hx
    have hlen : o.items.length = earlier.length + 1 := by rw [hx]; simp
    rw [removeItem_at o _ hpaid hfrozen (by omega) (le_refl _)]
    have hk : ((o.items.length : ℤ) - 1).toNat = earlier.length := by omega
    rw [hk]
    conv_lhs => rw [hx, eraseIdx_append_last]
  refine ⟨?_, ?_, ?_, ?_, ?_, ?_, ?_, ?_⟩
  · intro x hx
    refine ⟨_, calculatePrice_eq_sum R o, ?_⟩
    rw [hadd, calculatePrice_eq_sum]
    simp only [List.map_append, List.map_cons, List.map_nil]
    rw [sum_after_append R _ _ hx]
  · intro x hx
    refine ⟨_, calculateCalories_eq_sum R o, ?_⟩
    rw [hadd, calculateCalories_eq_sum]
    simp only [List.map_append, List.map_cons, List.map_nil]
    rw [sum_after_append R _ _ hx]
  · intro H x h
    exact item_values H R x h
  · intro earlier x hx hv
    refine ⟨_, _, calculatePrice_eq_sum R o, calculatePrice_eq_sum R _, ?_⟩
    rw [hlast earlier x hx]
    conv_lhs => rw [hx]
    simp only [List.map_append, List.map_cons, List.map_nil]
    rw [sum_after_append R _ _ hv]
  · intro earlier x hx hv
    refine ⟨_, _, calculateCalories_eq_sum R o, calculateCalories_eq_sum R _, ?_⟩
    rw [hlast earlier x hx]
    conv_lhs => rw [hx]
    simp only [List.map_append, List.map_cons, List.map_nil]
    rw [sum_after_append R _ _ hv]
  · intro p x ns h1 hn hx hns hsum
    refine ⟨_, _, calculatePrice_eq_sum R o, calculatePrice_eq_sum R _, ?_⟩
    rw [removeItem_at o p hpaid hfrozen h1 hn]
    exact total_after_remove_int R _ o.items _ x ns hx hns hsum
  · intro p x ns h1 hn hx hns hsum
    refine ⟨_, _, calculateCalories_eq_sum R o, calculateCalories_eq_sum R _, ?_⟩
    rw [removeItem_at o p hpaid hfrozen h1 hn]
    exact total_after_remove_int R _ o.items _ x ns hx hns hsum
  · intro x
    rw [hadd]
    have hlen : (({ o with items := o.items ++ [x] } : Order).items.length : ℤ)
        = (o.items.length : ℤ) + 1 := by simp
    have hrem := removeItem_at { o with items := o.items ++ [x] } ((o.items.length : ℤ) + 1)
      hpaid hfrozen (by omega) (by rw [hlen])
    have hk : ((o.items.length : ℤ) + 1 - 1).toNat = o.items.length := by omega
    rw [hrem]
    simp only [hk, eraseIdx_append_last]

/-- Witness for C19, amended: removing the Cola at position 1 from the open
order [Cola, Coffee], whose prices are the whole numbers 50 and 80. -/
theorem totals_track_edits_witness :
    ∃ before after,
      Order.calculatePrice exactRounding
          ⟨1, [.drink ⟨some "Cola", .fin 50, .fin 40⟩, .drink ⟨some "Coffee", .fin 80, .fin 20⟩],
            false, false⟩ = .ok before ∧
      (Order.removeItem
          ⟨1, [.drink ⟨some "Cola", .fin 50, .fin 40⟩, .drink ⟨some "Coffee", .fin 80, .fin 20⟩],
            false, false⟩ (.number (.fin ((1 : ℤ) : ℚ)))).2.calculatePrice exactRounding
        = .ok after ∧
      after = JSNumber.sub exactRounding before
        (Order.getItemPrice exactRounding (.drink ⟨some "Cola", .fin 50, .fin 40⟩)) :=
  (totals_track_edits exactRounding
    ⟨1, [.drink ⟨some "Cola", .fin 50, .fin 40⟩, .drink ⟨some "Coffee", .fin 80, .fin 20⟩],
      false, false⟩ rfl rfl).2.2.2.2.2.1 1 (.drink ⟨some "Cola", .fin 50, .fin 40⟩) [50, 80]
    (by decide) (by decide) rfl
    (by simp [Order.getItemPrice, Item.calculatePrice, Item.price, Item.fields])
    (by decide)

end Restaurant
